import Mathlib

/-!
Verification of the distributed key-value board replication system
(messenger sliding-window link, event store, logical clocks, causal node).

Each Lean definition is a shallow embedding of the corresponding Python
definition from the repository's source; exceptions raised by the Python
code are modelled with an explicit error type, and the Python `empty`
sentinel of the circular buffers is modelled as `Option.none`.
-/

set_option maxHeartbeats 1000000

namespace DistSys

/-- Errors the Python code can raise.  `nameErrorRaise` models the
`raise ProtocolError(...)` statement in `messenger.py`: the module defines
the class `ProtocollError` (two `l`s) but the `raise` references the
undefined name `ProtocolError`, so at runtime Python raises a `NameError`
instead of the declared protocol-violation error. -/
inductive PyErr where
  | outOfResource
  | indexError
  | assertionError
  | nameErrorRaise
  | typeError
  | unknownMessage
  deriving DecidableEq, Repr

/-- Embedding of `messenger.OutboundBuffer`: a fixed-capacity circular
buffer indexed from the beginning of all values ever inserted.  A slot
holding Python's `OutboundBuffer.empty` sentinel is `none`. -/
structure OutboundBuffer (α : Type) where
  capacity : Nat
  values : List (Option α)
  start : Nat
  size : Nat
  deriving Repr, DecidableEq

namespace OutboundBuffer

/-- `OutboundBuffer.__init__`. -/
def init (α : Type) (capacity : Nat) : OutboundBuffer α :=
  { capacity := capacity
    values := List.replicate capacity none
    start := 0
    size := 0 }

/-- The `end` property: one after the last message currently in the buffer
(`end` is a Lean keyword, hence the name `bufEnd`). -/
def bufEnd (b : OutboundBuffer α) : Nat := b.start + b.size

/-- The slot the buffer stores for absolute index `i`
(Python `self._values[i % self._capacity]`). -/
def slot (b : OutboundBuffer α) (i : Nat) : Option α :=
  b.values.getD (i % b.capacity) none

/-- `OutboundBuffer.__getitem__`.  Note the source's bound check is
`elif i > self._start + self._size`, so the index `start + size` (one past
the occupied range) is accepted. -/
def getItem (b : OutboundBuffer α) (i : Nat) : Except PyErr (Option α) :=
  if i < b.start then .error .indexError
  else if b.start + b.size < i then .error .indexError
  else .ok (b.slot i)

/-- `OutboundBuffer.__setitem__` (same bound checks as `__getitem__`). -/
def setItem (b : OutboundBuffer α) (i : Nat) (v : Option α) :
    Except PyErr (OutboundBuffer α) :=
  if i < b.start then .error .indexError
  else if b.start + b.size < i then .error .indexError
  else .ok { b with values := b.values.set (i % b.capacity) v }

/-- `OutboundBuffer.drop`: remove and return the value with the lowest
index.  The Python field `_size` is an `int`; the code only calls `drop`
on a buffer with at least one element, where `Nat` subtraction agrees. -/
def drop (b : OutboundBuffer α) : Option α × OutboundBuffer α :=
  (b.values.getD (b.start % b.capacity) none,
   { b with
       values := b.values.set (b.start % b.capacity) none
       start := b.start + 1
       size := b.size - 1 })

/-- `OutboundBuffer.append`: raises `OutOfResourceError` when no slot is
free, before any mutation. -/
def append (b : OutboundBuffer α) (v : Option α) :
    Except PyErr (OutboundBuffer α) :=
  if b.capacity ≤ b.size then .error .outOfResource
  else .ok { b with
               values := b.values.set ((b.start + b.size) % b.capacity) v
               size := b.size + 1 }

/-- `OutboundBuffer.create_empty_slot`. -/
def createEmptySlot (b : OutboundBuffer α) : Except PyErr (OutboundBuffer α) :=
  b.append none

/-- Structural well-formedness maintained by every reachable buffer:
the backing list has exactly `capacity` cells, the capacity is positive
(the connections are created with `window_size ≥ 1`), and at most
`capacity` values are held. -/
def WF (b : OutboundBuffer α) : Prop :=
  b.values.length = b.capacity ∧ 0 < b.capacity ∧ b.size ≤ b.capacity

/-- Authenticity invariant for a receive buffer: every slot in the
current window is either the empty sentinel or holds exactly the payload
the peer sent at that (1-based) position, for the payload sequence `p`. -/
def SlotsOK (p : Nat → α) (b : OutboundBuffer α) : Prop :=
  ∀ i, b.start ≤ i → i < b.bufEnd → b.slot i = none ∨ b.slot i = some (p (i + 1))

end OutboundBuffer

/-- Embedding of `messenger.ConnectionMessage` (the wire frame of one
`Connection`): a `typ` of `"content"` or `"ack"`, a sequence `value`, and
a payload (`none` for `ack` frames, whose `content` field is Python
`None`).  The wrapping into a `MessengerMessage`/`NetworkMessage` by
`_send_content`/`_send_ack` carries the frame unchanged and is elided. -/
structure ConnectionMessage (α : Type) where
  typ : String
  value : Nat
  content : Option α
  deriving Repr, DecidableEq

/-- Embedding of `messenger.Connection` (per-peer reliable link state).
Times are modelled as integers; the outbound buffer holds
`(timeout_deadline, payload)` pairs, the inbound buffer holds payloads
pending in-order release. -/
structure Connection (α : Type) where
  outBuffer : OutboundBuffer (Int × α)
  inBuffer : OutboundBuffer α
  timeout : Int
  deriving Repr

namespace Connection

/-- `Connection.__init__` with the given `window_size` and `timeout`. -/
def init (α : Type) (windowSize : Nat) (timeout : Int) : Connection α :=
  { outBuffer := OutboundBuffer.init (Int × α) windowSize
    inBuffer := OutboundBuffer.init α windowSize
    timeout := timeout }

/-- The frame built by `Connection._send_content`. -/
def contentMsg (contentId : Nat) (content : α) : ConnectionMessage α :=
  { typ := "content", value := contentId, content := some content }

/-- The frame built by `Connection._send_ack`. -/
def ackMsg (α : Type) (value : Nat) : ConnectionMessage α :=
  { typ := "ack", value := value, content := none }

/-- `Connection.send`.  The result is the post-call connection state, the
frames put on the out queue, and the exception raised (if any).
`OutboundBuffer.append` raises `OutOfResourceError` before mutating
anything, so on failure the state is unchanged and nothing is emitted;
the source's `except IndexError` clause never matches that exception, so
it propagates to the caller unchanged.  On success the frame is tagged
with `self._out_buffer.end` evaluated after the append. -/
def send (c : Connection α) (content : α) (time : Int) :
    Connection α × List (ConnectionMessage α) × Option PyErr :=
  match c.outBuffer.append (some (time + c.timeout, content)) with
  | .error e => (c, [], some e)
  | .ok b => ({ c with outBuffer := b }, [contentMsg b.bufEnd content], none)

/-- The window-extension loop in `Connection.receive`
(`for _ in range(self._in_buffer.end, message.value): create_empty_slot()`);
Python evaluates the `range` once, so the iteration count `k` is fixed at
entry.  An `OutOfResourceError` from `append` aborts the loop with the
partially extended buffer (Python mutates in place before raising). -/
def extendLoop (b : OutboundBuffer α) : Nat → OutboundBuffer α × Option PyErr
  | 0 => (b, none)
  | k + 1 =>
    match b.createEmptySlot with
    | .error e => (b, some e)
    | .ok b2 => extendLoop b2 k

/-- The drain loop in `Connection.receive`
(`for pos in range(start, end): if buf[pos] is not empty: drop() else break`),
with `nts` tracking `next_to_send`.  `k` is the number of remaining
iterations: Python evaluates `range(start, end)` once, so the loop body
runs at most `end - start` times, with `pos` advancing by one each turn.
A lookup failure would propagate as an exception. -/
def drainLoop (b : OutboundBuffer α) (pos : Nat) (nts : Nat)
    (acc : List (Option α)) :
    Nat → OutboundBuffer α × List (Option α) × Nat × Option PyErr
  | 0 => (b, acc, nts, none)
  | k + 1 =>
    match b.getItem pos with
    | .error e => (b, acc, nts, some e)
    | .ok none => (b, acc, nts, none)
    | .ok (some _) =>
      let r := b.drop
      drainLoop r.2 (pos + 1) (pos + 1) (acc ++ [r.1]) k

/-- Result of one `Connection.receive` call: post-call state, the list of
payloads returned to the application layer, the frames emitted, and the
exception raised (if any; an exception aborts the call with the state
mutated so far, delivering nothing and emitting no ack). -/
structure ReceiveResult (α : Type) where
  conn : Connection α
  delivered : List (Option α)
  emitted : List (ConnectionMessage α)
  err : Option PyErr
  deriving Repr

/-- The drain-and-ack tail of the `"content"` branch of
`Connection.receive`: run the drain loop over the current window
(`range(start, end)` has `end - start` iterations) and emit the
cumulative ack for `next_to_send`; an exception from the loop would
propagate, delivering nothing. -/
def drainPhase (c : Connection α) (b2 : OutboundBuffer α) :
    ReceiveResult α :=
  match drainLoop b2 b2.start b2.start [] (b2.bufEnd - b2.start) with
  | (b3, _, _, some e) => ⟨{ c with inBuffer := b3 }, [], [], some e⟩
  | (b3, acc, nts, none) => ⟨{ c with inBuffer := b3 }, acc, [ackMsg α nts], none⟩

/-- The part of the `"content"` branch of `Connection.receive` following
window extension, acting on the (possibly extended) receive buffer `b1`:
`assert message.value > 0`, then store the payload at position `value - 1`
(an `IndexError` there is caught and ignored: the stale-duplicate case),
then drain. -/
def afterExtend (c : Connection α) (b1 : OutboundBuffer α) (v : Nat)
    (content : Option α) : ReceiveResult α :=
  if v = 0 then ⟨{ c with inBuffer := b1 }, [], [], some .assertionError⟩
  else
    drainPhase c
      (match b1.setItem (v - 1) content with
       | .error _ => b1
       | .ok b => b)

/-- The `"content"` branch of `Connection.receive`: if the sequence
number is past the window's end, extend the window with empty
placeholders (an `OutOfResourceError` raised there aborts the call with
the partially extended buffer), then store, drain and ack via
`afterExtend`.  The conditional no-op statement at the top of the branch
is elided. -/
def receiveContent (c : Connection α) (v : Nat) (content : Option α) :
    ReceiveResult α :=
  match
    (if c.inBuffer.bufEnd < v then
      extendLoop c.inBuffer (v - c.inBuffer.bufEnd)
    else (c.inBuffer, none)) with
  | (b1, some e) => ⟨{ c with inBuffer := b1 }, [], [], some e⟩
  | (b1, none) => afterExtend c b1 v content

/-- The `while ack > self._out_buffer.start: drop()` loop of
`Connection._receive_handle_ack` (the loop counter `i` is unused).
Each `drop` advances `start` by one, so the loop runs exactly
`ack - start` times; that count is passed as the structural fuel. -/
def ackDropLoop (ack : Nat) (b : OutboundBuffer α) :
    Nat → OutboundBuffer α
  | 0 => b
  | k + 1 => if b.start < ack then ackDropLoop ack (b.drop).2 k else b

/-- `Connection._receive_handle_ack`: a stale ack (at or below the window
start) is a no-op; an ack past the window end executes
`raise ProtocolError(...)`, which names an undefined identifier and hence
raises `NameError` (see `PyErr.nameErrorRaise`); otherwise buffered items
are dropped until the window start reaches the acked value. -/
def receiveAck (c : Connection α) (ack : Nat) :
    Connection α × Option PyErr :=
  if ack ≤ c.outBuffer.start then (c, none)
  else if c.outBuffer.bufEnd < ack then (c, some .nameErrorRaise)
  else
    ({ c with
         outBuffer :=
           ackDropLoop ack c.outBuffer (ack - c.outBuffer.start) },
     none)

/-- `Connection.receive`, dispatching on the frame type (an unknown type
raises a plain `Exception`). -/
def receive (c : Connection α) (m : ConnectionMessage α) (_time : Int) :
    ReceiveResult α :=
  if m.typ = "content" then receiveContent c m.value m.content
  else if m.typ = "ack" then
    let r := receiveAck c m.value
    ⟨r.1, [], [], r.2⟩
  else ⟨c, [], [], some .unknownMessage⟩

/-- The retransmission loop of `Connection.wake_up`
(`for i in range(start, end)`): re-send every timed-out item with its
original position tag `i + 1` and push its deadline forward.  Unpacking
an empty slot (`timeout_time, content = self._out_buffer[i]`) would raise
a `TypeError`; out-buffer slots in the window are never empty. -/
def wakeLoop (time timeout : Int) (b : OutboundBuffer (Int × α))
    (pos : Nat) (msgs : List (ConnectionMessage α)) :
    Nat → OutboundBuffer (Int × α) × List (ConnectionMessage α) × Option PyErr
  | 0 => (b, msgs, none)
  | k + 1 =>
    match b.getItem pos with
    | .error e => (b, msgs, some e)
    | .ok none => (b, msgs, some .typeError)
    | .ok (some (deadline, content)) =>
      if deadline ≤ time then
        match b.setItem pos (some (time + timeout, content)) with
        | .error e => (b, msgs ++ [contentMsg (pos + 1) content], some e)
        | .ok b2 =>
          wakeLoop time timeout b2 (pos + 1)
            (msgs ++ [contentMsg (pos + 1) content]) k
      else wakeLoop time timeout b (pos + 1) msgs k

/-- Feed a sequence of incoming `content` frames `(value, payload)` to a
connection, one `receive` call each, collecting everything released to
the application layer in order. -/
def runFrames (c : Connection α) :
    List (Nat × Option α) → Connection α × List (Option α)
  | [] => (c, [])
  | f :: fs =>
    let r := c.receiveContent f.1 f.2
    let rest := runFrames r.conn fs
    (rest.1, r.delivered ++ rest.2)

/-- `Connection.wake_up`. -/
def wakeUp (c : Connection α) (time : Int) :
    Connection α × List (ConnectionMessage α) × Option PyErr :=
  if c.outBuffer.size = 0 then (c, [], none)
  else
    let r := wakeLoop time c.timeout c.outBuffer c.outBuffer.start []
      (c.outBuffer.bufEnd - c.outBuffer.start)
    ({ c with outBuffer := r.1 }, r.2.1, r.2.2)

end Connection

/-! ### event.py: EventStore and History

The store is relational (SQLite via sqlalchemy): an `events` table keyed
by `event_id` (PRIMARY KEY) and a `depended_events` edge table.  Rows
are modelled in insertion order; Python `dict`s are modelled as
insertion-ordered association lists. -/

/-- A row of the `events` table (timestamps are stored JSON-decoded:
the vector timestamp as its integer list, the bloom timestamp as its
`(filter, counter)` pair). -/
structure EventRow where
  event_id : String
  entry_id : String
  creation_timestamp : Int
  vector_timestamp : List Int
  bloom_filter : List Int
  bloom_counter : Int
  lamport_timestamp : Int
  action : String
  value : String
  deriving DecidableEq, Repr

/-- A row of the `depended_events` table: a directed dependency edge
`event_id → depended_event_id` (the event depends on the other). -/
structure DependedRow where
  event_id : String
  depended_event_id : String
  deriving DecidableEq, Repr

/-- Embedding of `event.Event` as reconstructed by
`EventStore.get_history` (the row data plus the attached dependency
list). -/
structure Event where
  event_id : String
  entry_id : String
  creation_timestamp : Int
  vector_timestamp : List Int
  bloom_filter : List Int
  bloom_counter : Int
  lamport_timestamp : Int
  action : String
  value : String
  depended_event_ids : List String
  deriving DecidableEq, Repr

/-- Embedding of `event.History`. -/
structure History where
  events : List (String × Event)
  inverted_dependencies : List (String × List String)
  root_events : List Event
  deriving Repr

/-- The keys of a Python dict modelled as an association list. -/
def dictKeys (m : List (String × β)) : List String := m.map (fun q => q.1)

/-- `if k not in m: m[k] = []` followed by `m[k].append(v)`. -/
def dictAppendTo (m : List (String × List String)) (k v : String) :
    List (String × List String) :=
  if m.any (fun q => q.1 == k) then
    m.map (fun q => if q.1 == k then (q.1, q.2 ++ [v]) else q)
  else m ++ [(k, [v])]

/-- `m[k] = v` on a Python dict. -/
def dictSet (m : List (String × β)) (k : String) (v : β) :
    List (String × β) :=
  if m.any (fun q => q.1 == k) then
    m.map (fun q => if q.1 == k then (q.1, v) else q)
  else m ++ [(k, v)]

/-- The persisted state `EventStore.add_event` accumulates: the two
tables. -/
structure EventStore where
  events : List EventRow
  depended_events : List DependedRow
  deriving Repr

namespace EventStore

/-- `events_list` in `get_history`:
`SELECT ... FROM events WHERE entry_id LIKE :entry_id`.  The generated
entry ids contain no SQL wildcard or letter characters, so `LIKE` is an
exact match here. -/
def eventsList (s : EventStore) (entry : String) : List EventRow :=
  s.events.filter (fun r => r.entry_id == entry)

/-- The `dependend_events` accumulation loop in `get_history`: for each
event of the entry, all edge rows with that `event_id`, concatenated. -/
def gatheredEdges (s : EventStore) (entry : String) : List DependedRow :=
  (s.eventsList entry).flatMap
    (fun r => s.depended_events.filter (fun d => d.event_id == r.event_id))

/-- The dict-building loop over the gathered edges, filling
`dependencies` (event id → its direct predecessor ids, in edge order)
and `inverted_dependencies` (event id → its direct successor ids). -/
def buildDeps (edges : List DependedRow) :
    List (String × List String) × List (String × List String) :=
  edges.foldl
    (fun acc d =>
      (dictAppendTo acc.1 d.event_id d.depended_event_id,
       dictAppendTo acc.2 d.depended_event_id d.event_id))
    ([], [])

/-- The `dependencies` dict of `get_history`. -/
def dependenciesDict (s : EventStore) (entry : String) :
    List (String × List String) :=
  (buildDeps (s.gatheredEdges entry)).1

/-- The `inverted_dependencies` dict of `get_history`. -/
def invertedDict (s : EventStore) (entry : String) :
    List (String × List String) :=
  (buildDeps (s.gatheredEdges entry)).2

/-- The `Event` object `get_history` constructs for a row:
`dependend_events = dependencies[event_id] if event_id in dependencies
else []`. -/
def mkEvent (deps : List (String × List String)) (r : EventRow) : Event :=
  { event_id := r.event_id
    entry_id := r.entry_id
    creation_timestamp := r.creation_timestamp
    vector_timestamp := r.vector_timestamp
    bloom_filter := r.bloom_filter
    bloom_counter := r.bloom_counter
    lamport_timestamp := r.lamport_timestamp
    action := r.action
    value := r.value
    depended_event_ids := (List.lookup r.event_id deps).getD [] }

/-- The `events` dict of `get_history` (`events[event_id] = Event(...)`
over `events_list`). -/
def eventsDict (s : EventStore) (entry : String) : List (String × Event) :=
  (s.eventsList entry).foldl
    (fun m r => dictSet m r.event_id (mkEvent (s.dependenciesDict entry) r))
    []

/-- `EventStore.get_history`.  `diff = set(events.keys()) -
set(dependencies.keys())` iterates in unspecified (hash) order in
Python; it is modelled in key-insertion order, and claims about
`root_events` are read at the level of membership. -/
def get_history (s : EventStore) (entry : String) : History :=
  { events := s.eventsDict entry
    inverted_dependencies := s.invertedDict entry
    root_events :=
      ((dictKeys (s.eventsDict entry)).filter
        (fun k => !(dictKeys (s.dependenciesDict entry)).contains k)).filterMap
        (fun id => List.lookup id (s.eventsDict entry)) }

/-- The root set as the specification sentence words it, for comparison
with `get_history`: the locally stored events of the entry that have no
predecessor event present in the locally known event set. -/
def specRootEvents (s : EventStore) (entry : String) : List Event :=
  ((s.get_history entry).events.map (fun q => q.2)).filter
    (fun e => !e.depended_event_ids.any
      (fun d => s.events.any (fun r => r.event_id == d)))

/-- A store holding a single `update` event "B" of entry "x" that
depends on an event "A" which has not arrived: the recorded edge exists,
the predecessor event does not. -/
def storeMissingPredecessor : EventStore :=
  { events := [{ event_id := "B", entry_id := "x",
                 creation_timestamp := 0, vector_timestamp := [],
                 bloom_filter := [], bloom_counter := 0,
                 lamport_timestamp := 0, action := "update",
                 value := "v" }]
    depended_events := [{ event_id := "B", depended_event_id := "A" }] }

end EventStore

/-! ### vector_clock.py -/

/-- Embedding of `vector_clock.VectorTimestamp` (Python normalizes every
component with `int(i)` at construction). -/
structure VectorTimestamp where
  vector : List Int
  deriving DecidableEq, Repr

namespace VectorTimestamp

/-- The comparison loop of `VectorTimestamp.__lt__`, walking the vectors
in lock step with the running `res` flag: `self[i] < other[i]` sets
`res`, `self[i] > other[i]` returns `False` immediately.  After the
assert the vectors have equal length, so the lock step never hits the
catch-all. -/
def ltLoop : List Int → List Int → Bool → Bool
  | x :: xs, y :: ys, res =>
    if x < y then ltLoop xs ys true
    else if y < x then false
    else ltLoop xs ys res
  | _, _, res => res

/-- `VectorTimestamp.__lt__`:
`assert len(other._vector) == len(self._vector)` (an `AssertionError`
when the lengths differ), then the loop with `res = False`. -/
def lt (a b : VectorTimestamp) : Except PyErr Bool :=
  if b.vector.length = a.vector.length then
    .ok (ltLoop a.vector b.vector false)
  else .error .assertionError

/-- `VectorTimestamp.is_concurrent`:
`(not self < other) and (not other < self)`, with Python's short-circuit
`and` (the second comparison is not evaluated when the first one already
decides). -/
def is_concurrent (a b : VectorTimestamp) : Except PyErr Bool :=
  match lt a b with
  | .error e => .error e
  | .ok true => .ok false
  | .ok false =>
    match lt b a with
    | .error e => .error e
    | .ok r => .ok (!r)

end VectorTimestamp

/-! ### bloom_clock.py -/

/-- Embedding of `bloom_clock.BloomTimestamp`: the filter bit list and
the logical counter. -/
structure BloomTimestamp where
  bloomFilter : List Int
  counter : Int
  deriving DecidableEq, Repr

namespace BloomTimestamp

/-- The elementwise loop of `is_subset_of`: any `self[i] > other[i]`
returns `False`, otherwise `True`. -/
def subsetLoop : List Int → List Int → Bool
  | x :: xs, y :: ys => if y < x then false else subsetLoop xs ys
  | _, _ => true

/-- `BloomTimestamp.is_subset_of`: on filters of different length it
returns `False` (no exception is raised), otherwise the elementwise
check. -/
def is_subset_of (a b : BloomTimestamp) : Bool :=
  if a.bloomFilter.length ≠ b.bloomFilter.length then false
  else subsetLoop a.bloomFilter b.bloomFilter

/-- `BloomTimestamp.is_concurrent`: neither filter is a subset of the
other. -/
def is_concurrent (a b : BloomTimestamp) : Bool :=
  !a.is_subset_of b && !b.is_subset_of a

end BloomTimestamp

/-! ### The causal event-sourcing Node (spec-modelled)

The `src/node.py` of this snapshot is the coordinator/mutual-exclusion
variant that the specification excludes from the core; it cannot run
against `src/event.py` (its `create_entry` passes 4 of the 9 required
`Event` constructor arguments), while the tests
(`ordering_test.py`, `distributed_test.py`, `performance_test.py`)
exercise a causal event-sourcing `Node` with pluggable clock sorters
that is not present under `src/`.  The definitions below are therefore
modelled from the specification (§3 History, §4.5 EntryResolver,
§6 Node API). -/

namespace SpecNode

/-- Modelled from the spec: the application-level event, restricted to
the fields the resolution walk reads (§3 Event). -/
structure SEvent where
  event_id : String
  entry_id : String
  action : String
  value : String
  depended_event_ids : List String
  deriving DecidableEq, Repr

/-- Modelled from the spec: the root events of one entry's history —
"events with no predecessor present in the local store" (§3 History),
over the node's local event set. -/
def rootEvents (store : List SEvent) (entry : String) : List SEvent :=
  (store.filter (fun e => e.entry_id == entry)).filter
    (fun e => !e.depended_event_ids.any
      (fun d => store.any (fun e2 => e2.event_id == d)))

/-- Modelled from the spec: the usable roots — roots that are `create`
events (§4.5: "exactly one usable root (a `create` event)"). -/
def usableRoots (store : List SEvent) (entry : String) : List SEvent :=
  (rootEvents store entry).filter (fun e => e.action == "create")

/-- Modelled from the spec: the direct successors of an event in the
entry's dependency DAG (§4.5). -/
def successorsOf (store : List SEvent) (entry : String) (eid : String) :
    List SEvent :=
  store.filter
    (fun e => e.entry_id == entry && e.depended_event_ids.contains eid)

/-- Modelled from the spec: the resolution walk (§4.5), parametric in
the configured comparator `choose` that selects exactly one successor.
`none` means "entry does not exist"; an `update` (or `create`) successor
replaces the value and advances the cursor, a `delete` terminates.  The
fuel bounds the walk by the store size; on an acyclic dependency graph
it never runs out. -/
def resolveWalk (choose : List SEvent → Option SEvent)
    (store : List SEvent) (entry : String) :
    Nat → SEvent → Option String
  | 0, cur => some cur.value
  | fuel + 1, cur =>
    match choose (successorsOf store entry cur.event_id) with
    | none => some cur.value
    | some nxt =>
      if nxt.action == "delete" then none
      else resolveWalk choose store entry fuel nxt

/-- Modelled from the spec: resolve one entry (§4.5) — with exactly one
usable root, walk from it; with zero usable roots the entry "is reported
as not yet visible (not an error)", and with several the node waits for
more data (§9). -/
def resolveEntry (choose : List SEvent → Option SEvent)
    (store : List SEvent) (entry : String) : Option String :=
  match usableRoots store entry with
  | [r] => resolveWalk choose store entry store.length r
  | _ => none

/-- Modelled from the spec: `get_entries()` (§6 Node API) — the
currently visible entries with their resolved values, one per known
entry id. -/
def getEntries (choose : List SEvent → Option SEvent)
    (store : List SEvent) : List (String × String) :=
  ((store.map (fun e => e.entry_id)).dedup).filterMap
    (fun id => (resolveEntry choose store id).map (fun v => (id, v)))

/-- A trivial comparator instance (first successor) used to instantiate
the comparator-parametric statements. -/
def headChoose (l : List SEvent) : Option SEvent := l.head?

/-- The create event of the spec's reordered-delivery scenario (§8). -/
def createEvt : SEvent :=
  { event_id := "e1", entry_id := "X", action := "create"
    value := "Initial", depended_event_ids := [] }

/-- The update event of the spec's reordered-delivery scenario (§8),
causally after `createEvt`. -/
def updEvt : SEvent :=
  { event_id := "e2", entry_id := "X", action := "update"
    value := "Updated", depended_event_ids := ["e1"] }

end SpecNode

/-! ### Buffer lemmas

Absolute indices within the current window map injectively onto the
backing cells, because the window never holds more than `capacity`
values.  These lemmas track how each buffer operation acts on `slot`. -/

theorem mod_ne_of_close {cap i j : Nat} (hij : i < j)
    (hclose : j - i < cap) : i % cap ≠ j % cap := by
  intro h
  have hdvd : cap ∣ j - i := (Nat.modEq_iff_dvd' (Nat.le_of_lt hij)).mp h
  have hpos : 0 < j - i := by omega
  have := Nat.le_of_dvd hpos hdvd
  omega

namespace OutboundBuffer

theorem getD_set_self {l : List (Option α)} {j : Nat} {v : Option α}
    (h : j < l.length) : (l.set j v).getD j none = v := by
  rw [List.getD_eq_getElem?_getD, List.getElem?_set_self h]
  rfl

theorem getD_set_ne {l : List (Option α)} {i j : Nat} {v : Option α}
    (h : j ≠ i) : (l.set j v).getD i none = l.getD i none := by
  rw [List.getD_eq_getElem?_getD, List.getElem?_set_ne h,
    ← List.getD_eq_getElem?_getD]

theorem append_ok {b b' : OutboundBuffer α} {v : Option α}
    (h : b.append v = .ok b') :
    b.size < b.capacity ∧ b'.capacity = b.capacity ∧ b'.start = b.start ∧
      b'.size = b.size + 1 ∧
      b'.values = b.values.set ((b.start + b.size) % b.capacity) v := by
  unfold append at h
  split at h
  · exact absurd h (by simp)
  · cases h
    refine ⟨by omega, rfl, rfl, rfl, rfl⟩

theorem append_ok_WF {b b' : OutboundBuffer α} {v : Option α} (hWF : b.WF)
    (h : b.append v = .ok b') : b'.WF := by
  obtain ⟨h1, h2, h3, h4, h5⟩ := append_ok h
  obtain ⟨hl, hc, hs⟩ := hWF
  refine ⟨?_, by omega, by omega⟩
  rw [h5, List.length_set, hl, h2]

theorem slot_append_new {b b' : OutboundBuffer α} {v : Option α}
    (hWF : b.WF) (h : b.append v = .ok b') : b'.slot b.bufEnd = v := by
  obtain ⟨h1, h2, h3, h4, h5⟩ := append_ok h
  obtain ⟨hl, hc, hs⟩ := hWF
  unfold slot bufEnd
  rw [h5, h2]
  exact getD_set_self (by rw [hl]; exact Nat.mod_lt _ hc)

theorem slot_append_old {b b' : OutboundBuffer α} {v : Option α}
    (hWF : b.WF) (h : b.append v = .ok b') (i : Nat)
    (hlo : b.start ≤ i) (hhi : i < b.bufEnd) : b'.slot i = b.slot i := by
  obtain ⟨h1, h2, h3, h4, h5⟩ := append_ok h
  obtain ⟨hl, hc, hs⟩ := hWF
  unfold slot
  rw [h5, h2]
  exact getD_set_ne (Ne.symm (mod_ne_of_close (by unfold bufEnd at hhi; omega)
    (by unfold bufEnd at hhi; omega)))

theorem setItem_ok {b b' : OutboundBuffer α} {i : Nat} {v : Option α}
    (h : b.setItem i v = .ok b') :
    b.start ≤ i ∧ i ≤ b.bufEnd ∧ b'.capacity = b.capacity ∧
      b'.start = b.start ∧ b'.size = b.size ∧
      b'.values = b.values.set (i % b.capacity) v := by
  unfold setItem at h
  split at h
  · exact absurd h (by simp)
  · split at h
    · exact absurd h (by simp)
    · cases h
      exact ⟨by omega, by unfold bufEnd; omega, rfl, rfl, rfl, rfl⟩

theorem setItem_ok_WF {b b' : OutboundBuffer α} {i : Nat} {v : Option α}
    (hWF : b.WF) (h : b.setItem i v = .ok b') : b'.WF := by
  obtain ⟨h1, h2, h3, h4, h5, h6⟩ := setItem_ok h
  obtain ⟨hl, hc, hs⟩ := hWF
  refine ⟨?_, by omega, by omega⟩
  rw [h6, List.length_set, hl, h3]

theorem slot_setItem_self {b b' : OutboundBuffer α} {i : Nat}
    {v : Option α} (hWF : b.WF) (h : b.setItem i v = .ok b') :
    b'.slot i = v := by
  obtain ⟨h1, h2, h3, h4, h5, h6⟩ := setItem_ok h
  obtain ⟨hl, hc, hs⟩ := hWF
  unfold slot
  rw [h6, h3]
  exact getD_set_self (by rw [hl]; exact Nat.mod_lt _ hc)

theorem slot_setItem_other {b b' : OutboundBuffer α} {i : Nat}
    {v : Option α} (hWF : b.WF) (h : b.setItem i v = .ok b')
    (hi : i < b.bufEnd) (j : Nat) (hlo : b.start ≤ j) (hhi : j < b.bufEnd)
    (hne : j ≠ i) : b'.slot j = b.slot j := by
  obtain ⟨h1, h2, h3, h4, h5, h6⟩ := setItem_ok h
  obtain ⟨hl, hc, hs⟩ := hWF
  have hB : b.bufEnd = b.start + b.size := rfl
  unfold slot
  rw [h6, h3]
  refine getD_set_ne ?_
  rcases Nat.lt_or_ge i j with hij | hij
  · exact mod_ne_of_close hij (by omega)
  · exact Ne.symm (mod_ne_of_close (by omega) (by omega))

theorem drop_parts {b : OutboundBuffer α} :
    (b.drop).1 = b.slot b.start ∧ (b.drop).2.capacity = b.capacity ∧
      (b.drop).2.start = b.start + 1 ∧ (b.drop).2.size = b.size - 1 ∧
      (b.drop).2.values = b.values.set (b.start % b.capacity) none :=
  ⟨rfl, rfl, rfl, rfl, rfl⟩

theorem drop_WF {b : OutboundBuffer α} (hWF : b.WF) : (b.drop).2.WF := by
  obtain ⟨hl, hc, hs⟩ := hWF
  exact ⟨by simp [drop, List.length_set, hl], hc, by simp [drop]; omega⟩

theorem slot_drop_old {b : OutboundBuffer α} (hWF : b.WF) (i : Nat)
    (hlo : b.start + 1 ≤ i) (hhi : i < b.bufEnd) :
    (b.drop).2.slot i = b.slot i := by
  obtain ⟨hl, hc, hs⟩ := hWF
  unfold slot drop
  simp only
  exact getD_set_ne (mod_ne_of_close (by omega)
    (by unfold bufEnd at hhi; omega))

theorem SlotsOK_init (p : Nat → α) (cap : Nat) :
    SlotsOK p (OutboundBuffer.init α cap) := by
  intro i hlo hhi
  have h0 : (OutboundBuffer.init α cap).bufEnd = 0 := rfl
  omega

theorem WF_init (cap : Nat) (hc : 0 < cap) :
    (OutboundBuffer.init α cap).WF := by
  refine ⟨by simp [OutboundBuffer.init], hc, by simp [OutboundBuffer.init]⟩

end OutboundBuffer

/-! ### In-order delivery (claim C1) -/

namespace Connection

open OutboundBuffer

theorem extendLoop_spec (p : Nat → α) :
    ∀ (k : Nat) (b : OutboundBuffer α), b.WF → SlotsOK p b →
      (extendLoop b k).1.WF ∧ SlotsOK p (extendLoop b k).1 ∧
        (extendLoop b k).1.start = b.start ∧
        b.bufEnd ≤ (extendLoop b k).1.bufEnd ∧
        ((extendLoop b k).2 = none →
          (extendLoop b k).1.bufEnd = b.bufEnd + k) := by
  intro k
  induction k with
  | zero =>
    intro b hWF hS
    exact ⟨hWF, hS, rfl, Nat.le_refl _, fun _ => rfl⟩
  | succ k ih =>
    intro b hWF hS
    rcases hap : b.createEmptySlot with e | b2
    · have hstep : extendLoop b (k + 1) = (b, some e) := by
        unfold extendLoop
        rw [hap]
      rw [hstep]
      exact ⟨hWF, hS, rfl, Nat.le_refl _, fun h => absurd h (by simp)⟩
    · have hstep : extendLoop b (k + 1) = extendLoop b2 k := by
        conv_lhs => unfold extendLoop
        rw [hap]
      rw [hstep]
      have hap' : b.append none = .ok b2 := hap
      obtain ⟨hlt, hcap, hst, hsz, hvals⟩ := append_ok hap'
      have hWF2 : b2.WF := append_ok_WF hWF hap'
      have hend2 : b2.bufEnd = b.bufEnd + 1 := by
        unfold OutboundBuffer.bufEnd
        omega
      have hS2 : SlotsOK p b2 := by
        intro i hlo hhi
        rcases Nat.lt_or_ge i b.bufEnd with hi | hi
        · rw [slot_append_old hWF hap' i (by omega) hi]
          exact hS i (by omega) hi
        · have hieq : i = b.bufEnd := by omega
          left
          rw [hieq]
          exact slot_append_new hWF hap'
      obtain ⟨g1, g2, g3, g4, g5⟩ := ih b2 hWF2 hS2
      exact ⟨g1, g2, by omega, by omega, fun hnone => by
        have := g5 hnone
        omega⟩

theorem drainLoop_spec (p : Nat → α) :
    ∀ (k : Nat) (b : OutboundBuffer α) (acc : List (Option α)),
      k = b.size → b.WF → SlotsOK p b →
      (drainLoop b b.start b.start acc k).1.WF ∧
        SlotsOK p (drainLoop b b.start b.start acc k).1 ∧
        (drainLoop b b.start b.start acc k).2.2.2 = none ∧
        (drainLoop b b.start b.start acc k).1.bufEnd = b.bufEnd ∧
        b.start ≤ (drainLoop b b.start b.start acc k).1.start ∧
        (drainLoop b b.start b.start acc k).2.2.1 =
          (drainLoop b b.start b.start acc k).1.start ∧
        (drainLoop b b.start b.start acc k).2.1 =
          acc ++ (List.range' (b.start + 1)
            ((drainLoop b b.start b.start acc k).1.start - b.start)).map
              (fun n => some (p n)) := by
  intro k
  induction k with
  | zero =>
    intro b acc _ hWF hS
    refine ⟨hWF, hS, rfl, rfl, Nat.le_refl _, rfl, by simp [drainLoop]⟩
  | succ k ih =>
    intro b acc hk hWF hS
    have hend : b.bufEnd = b.start + b.size := rfl
    have hget : b.getItem b.start = .ok (b.slot b.start) := by
      unfold OutboundBuffer.getItem
      rw [if_neg (by omega), if_neg (by omega)]
    rcases hslot : b.slot b.start with _ | x
    · unfold drainLoop
      rw [hget, hslot]
      exact ⟨hWF, hS, rfl, rfl, Nat.le_refl _, rfl, by simp⟩
    · have hx : x = p (b.start + 1) := by
        rcases hS b.start (Nat.le_refl _) (by omega) with h0 | h0
        · rw [hslot] at h0; cases h0
        · rw [hslot] at h0; injection h0
      set b2 := (b.drop).2 with hb2
      have hfst : (b.drop).1 = some (p (b.start + 1)) := by
        rw [drop_parts.1, hslot, hx]
      have hWF2 : b2.WF := drop_WF hWF
      have hst2 : b2.start = b.start + 1 := rfl
      have hsz2 : b2.size = b.size - 1 := rfl
      have hend2 : b2.bufEnd = b.bufEnd := by
        unfold OutboundBuffer.bufEnd
        omega
      have hS2 : SlotsOK p b2 := by
        intro i hlo hhi
        rw [slot_drop_old hWF i (by omega) (by omega)]
        exact hS i (by omega) (by omega)
      have hk2 : k = b2.size := by omega
      have step : drainLoop b b.start b.start acc (k + 1) =
          drainLoop b2 b2.start b2.start (acc ++ [(b.drop).1]) k := by
        conv_lhs => unfold drainLoop
        rw [hget, hslot, hst2]
      rw [hfst] at step
      obtain ⟨g1, g2, g3, g4, g5, g6, g7⟩ :=
        ih b2 (acc ++ [some (p (b.start + 1))]) hk2 hWF2 hS2
      rw [step]
      refine ⟨g1, g2, g3, by omega, by omega, g6, ?_⟩
      rw [g7, List.append_assoc]
      congr 1
      have hge : b.start + 1 ≤ (drainLoop b2 b2.start b2.start
          (acc ++ [some (p (b.start + 1))]) k).1.start := by
        rw [← hst2]; exact g5
      have harith : (drainLoop b2 b2.start b2.start
            (acc ++ [some (p (b.start + 1))]) k).1.start - b.start =
          ((drainLoop b2 b2.start b2.start
            (acc ++ [some (p (b.start + 1))]) k).1.start - (b.start + 1))
            + 1 := by
        omega
      rw [harith, List.range'_succ, hst2]
      simp

theorem drainPhase_spec (p : Nat → α) (c : Connection α)
    (b2 : OutboundBuffer α) (hWF : b2.WF) (hS : SlotsOK p b2) :
    (drainPhase c b2).conn.inBuffer.WF ∧
      SlotsOK p (drainPhase c b2).conn.inBuffer ∧
      b2.start ≤ (drainPhase c b2).conn.inBuffer.start ∧
      (drainPhase c b2).conn.outBuffer = c.outBuffer ∧
      (drainPhase c b2).conn.timeout = c.timeout ∧
      (drainPhase c b2).delivered =
        (List.range' (b2.start + 1)
          ((drainPhase c b2).conn.inBuffer.start - b2.start)).map
            (fun n => some (p n)) := by
  have hfuel : b2.bufEnd - b2.start = b2.size := by
    unfold OutboundBuffer.bufEnd
    omega
  obtain ⟨d1, d2, d3, d4, d5, d6, d7⟩ := drainLoop_spec p b2.size b2 [] rfl hWF hS
  unfold drainPhase
  rw [hfuel]
  split
  · rename_i b3 e heq
    rw [heq] at d3
    exact absurd d3 (by simp)
  · rename_i b3 acc nts heq
    rw [heq] at d1 d2 d4 d5 d6 d7
    simp only at d1 d2 d4 d5 d6 d7
    exact ⟨d1, d2, d5, rfl, rfl, by rw [d7]; simp⟩

theorem afterExtend_spec (p : Nat → α) (c : Connection α)
    (b1 : OutboundBuffer α) (v : Nat) (hWF : b1.WF) (hS : SlotsOK p b1)
    (hv : 1 ≤ v) (hvend : v ≤ b1.bufEnd) :
    (afterExtend c b1 v (some (p v))).conn.inBuffer.WF ∧
      SlotsOK p (afterExtend c b1 v (some (p v))).conn.inBuffer ∧
      b1.start ≤ (afterExtend c b1 v (some (p v))).conn.inBuffer.start ∧
      (afterExtend c b1 v (some (p v))).conn.outBuffer = c.outBuffer ∧
      (afterExtend c b1 v (some (p v))).conn.timeout = c.timeout ∧
      (afterExtend c b1 v (some (p v))).delivered =
        (List.range' (b1.start + 1)
          ((afterExtend c b1 v (some (p v))).conn.inBuffer.start
            - b1.start)).map (fun n => some (p n)) := by
  unfold afterExtend
  rw [if_neg (by omega)]
  have hb2 : ∃ b2,
      (match b1.setItem (v - 1) (some (p v)) with
       | Except.error _ => b1
       | Except.ok b => b) = b2 ∧
      b2.WF ∧ SlotsOK p b2 ∧ b2.start = b1.start := by
    rcases hset : b1.setItem (v - 1) (some (p v)) with e | bset
    · exact ⟨b1, rfl, hWF, hS, rfl⟩
    · refine ⟨bset, rfl, setItem_ok_WF hWF hset, ?_,
        (setItem_ok hset).2.2.2.1⟩
      obtain ⟨s1, s2, s3, s4, s5, s6⟩ := setItem_ok hset
      have hvlt : v - 1 < b1.bufEnd := by omega
      have hendeq : bset.bufEnd = b1.bufEnd := by
        unfold OutboundBuffer.bufEnd
        omega
      intro i hlo hhi
      rw [s4] at hlo
      rw [hendeq] at hhi
      rcases Nat.decEq i (v - 1) with hne | hieq
      · rw [slot_setItem_other hWF hset hvlt i hlo hhi hne]
        exact hS i hlo hhi
      · right
        rw [hieq, slot_setItem_self hWF hset]
        congr 2
        omega
  obtain ⟨b2, hb2eq, hWF2, hS2, hst2⟩ := hb2
  rw [hb2eq]
  have := drainPhase_spec p c b2 hWF2 hS2
  rw [hst2] at this
  exact this

theorem receiveContent_spec (p : Nat → α) (c : Connection α) (v : Nat)
    (hWF : c.inBuffer.WF) (hS : SlotsOK p c.inBuffer) (hv : 1 ≤ v) :
    (c.receiveContent v (some (p v))).conn.inBuffer.WF ∧
      SlotsOK p (c.receiveContent v (some (p v))).conn.inBuffer ∧
      c.inBuffer.start ≤ (c.receiveContent v (some (p v))).conn.inBuffer.start ∧
      (c.receiveContent v (some (p v))).conn.outBuffer = c.outBuffer ∧
      (c.receiveContent v (some (p v))).conn.timeout = c.timeout ∧
      (c.receiveContent v (some (p v))).delivered =
        (List.range' (c.inBuffer.start + 1)
          ((c.receiveContent v (some (p v))).conn.inBuffer.start
            - c.inBuffer.start)).map (fun n => some (p n)) := by
  unfold receiveContent
  rcases heq :
    (if c.inBuffer.bufEnd < v then
      extendLoop c.inBuffer (v - c.inBuffer.bufEnd)
    else (c.inBuffer, none)) with ⟨b1, e1⟩
  have hfacts : b1.WF ∧ SlotsOK p b1 ∧ b1.start = c.inBuffer.start ∧
      (e1 = none → v ≤ b1.bufEnd) := by
    by_cases hc : c.inBuffer.bufEnd < v
    · rw [if_pos hc] at heq
      obtain ⟨g1, g2, g3, g4, g5⟩ :=
        extendLoop_spec p (v - c.inBuffer.bufEnd) c.inBuffer hWF hS
      rw [heq] at g1 g2 g3 g4 g5
      simp only at g1 g2 g3 g4 g5
      exact ⟨g1, g2, g3, fun h => by have := g5 h; omega⟩
    · rw [if_neg hc] at heq
      cases heq
      exact ⟨hWF, hS, rfl, fun _ => by omega⟩
  obtain ⟨hWF1, hS1, hst1, himp⟩ := hfacts
  rcases e1 with _ | e
  · have h := afterExtend_spec p c b1 v hWF1 hS1 hv (himp rfl)
    rw [hst1] at h
    exact h
  · exact ⟨hWF1, hS1, Nat.le_of_eq hst1.symm, rfl, rfl, by
      show ([] : List (Option α)) =
        (List.range' (c.inBuffer.start + 1)
          (b1.start - c.inBuffer.start)).map (fun n => some (p n))
      rw [hst1]
      simp⟩

theorem runFrames_spec (p : Nat → α) :
    ∀ (fs : List (Nat × Option α)) (c : Connection α),
      c.inBuffer.WF → SlotsOK p c.inBuffer →
      (∀ f ∈ fs, 1 ≤ f.1 ∧ f.2 = some (p f.1)) →
      (runFrames c fs).1.inBuffer.WF ∧
        SlotsOK p (runFrames c fs).1.inBuffer ∧
        c.inBuffer.start ≤ (runFrames c fs).1.inBuffer.start ∧
        (runFrames c fs).2 =
          (List.range' (c.inBuffer.start + 1)
            ((runFrames c fs).1.inBuffer.start - c.inBuffer.start)).map
              (fun n => some (p n)) := by
  intro fs
  induction fs with
  | nil =>
    intro c hWF hS _
    exact ⟨hWF, hS, Nat.le_refl _, by simp [runFrames]⟩
  | cons f fs ih =>
    intro c hWF hS hfs
    obtain ⟨hf1, hf2⟩ := hfs f (List.mem_cons_self f fs)
    have hstep1 : (runFrames c (f :: fs)).1 =
        (runFrames (c.receiveContent f.1 f.2).conn fs).1 := rfl
    have hstep2 : (runFrames c (f :: fs)).2 =
        (c.receiveContent f.1 f.2).delivered ++
          (runFrames (c.receiveContent f.1 f.2).conn fs).2 := rfl
    rw [hf2] at hstep1 hstep2
    rw [hstep1, hstep2]
    obtain ⟨r1, r2, r3, _, _, r6⟩ := receiveContent_spec p c f.1 hWF hS hf1
    obtain ⟨i1, i2, i3, i4⟩ :=
      ih (c.receiveContent f.1 (some (p f.1))).conn r1 r2
        (fun g hg => hfs g (List.mem_cons_of_mem f hg))
    refine ⟨i1, i2, by omega, ?_⟩
    rw [r6, i4, ← List.map_append]
    congr 1
    have harr : (List.range'
        ((c.receiveContent f.1 (some (p f.1))).conn.inBuffer.start + 1)
        ((runFrames (c.receiveContent f.1 (some (p f.1))).conn fs).1.inBuffer.start
          - (c.receiveContent f.1 (some (p f.1))).conn.inBuffer.start)) =
        (List.range'
          ((c.inBuffer.start + 1) + 1 *
            ((c.receiveContent f.1 (some (p f.1))).conn.inBuffer.start
              - c.inBuffer.start))
          ((runFrames (c.receiveContent f.1 (some (p f.1))).conn fs).1.inBuffer.start
            - (c.receiveContent f.1 (some (p f.1))).conn.inBuffer.start)) := by
      congr 1
      omega
    rw [harr, List.range'_append]
    congr 1
    omega

theorem wakeLoop_shape (time timeout : Int) :
    ∀ (k : Nat) (b : OutboundBuffer (Int × α)) (pos : Nat)
      (msgs : List (ConnectionMessage α)),
      (wakeLoop time timeout b pos msgs k).1.start = b.start ∧
      (wakeLoop time timeout b pos msgs k).1.size = b.size := by
  intro k
  induction k with
  | zero => intro b pos msgs; exact ⟨rfl, rfl⟩
  | succ k ih =>
    intro b pos msgs
    unfold wakeLoop
    split
    · exact ⟨rfl, rfl⟩
    · exact ⟨rfl, rfl⟩
    · split
      · split
        · exact ⟨rfl, rfl⟩
        · rename_i hset
          obtain ⟨s1, s2, s3, s4, s5, s6⟩ := OutboundBuffer.setItem_ok hset
          constructor
          · rw [(ih _ (pos + 1) _).1]
            exact s4
          · rw [(ih _ (pos + 1) _).2]
            exact s5
      · exact ih b (pos + 1) msgs

theorem ackDropLoop_bufEnd (ack : Nat) :
    ∀ (k : Nat) (b : OutboundBuffer α), ack ≤ b.bufEnd →
      (ackDropLoop ack b k).bufEnd = b.bufEnd := by
  intro k
  induction k with
  | zero => intro b _; rfl
  | succ k ih =>
    intro b h
    unfold ackDropLoop
    by_cases hlt : b.start < ack
    · rw [if_pos hlt]
      have hend : b.bufEnd = b.start + b.size := rfl
      have hend2 : (b.drop).2.bufEnd = b.bufEnd := by
        show (b.start + 1) + (b.size - 1) = b.start + b.size
        omega
      rw [ih (b.drop).2 (by omega), hend2]
    · rw [if_neg hlt]

theorem extendLoop_overflow :
    ∀ (k : Nat) (b : OutboundBuffer α), b.size ≤ b.capacity →
      b.capacity < b.size + k →
      (extendLoop b k).2 = some PyErr.outOfResource := by
  intro k
  induction k with
  | zero => intro b hs hlt; exact absurd hlt (by omega)
  | succ k ih =>
    intro b hs hlt
    by_cases hfull : b.capacity ≤ b.size
    · have hap : b.createEmptySlot = .error PyErr.outOfResource := by
        unfold OutboundBuffer.createEmptySlot OutboundBuffer.append
        rw [if_pos hfull]
      have hstep : extendLoop b (k + 1) = (b, some PyErr.outOfResource) := by
        conv_lhs => unfold extendLoop
        rw [hap]
      rw [hstep]
    · have hap : b.createEmptySlot =
          .ok { b with
                  values := b.values.set
                    ((b.start + b.size) % b.capacity) none
                  size := b.size + 1 } := by
        unfold OutboundBuffer.createEmptySlot OutboundBuffer.append
        rw [if_neg hfull]
      have hstep : extendLoop b (k + 1) =
          extendLoop { b with
                         values := b.values.set
                           ((b.start + b.size) % b.capacity) none
                         size := b.size + 1 } k := by
        conv_lhs => unfold extendLoop
        rw [hap]
      rw [hstep]
      exact ih _ (by simp; omega) (by simp; omega)

theorem drainPhase_frame (c : Connection α) (b2 : OutboundBuffer α) :
    (drainPhase c b2).conn.outBuffer = c.outBuffer := by
  unfold drainPhase
  split <;> rfl

theorem afterExtend_frame (c : Connection α) (b1 : OutboundBuffer α)
    (v : Nat) (cont : Option α) :
    (afterExtend c b1 v cont).conn.outBuffer = c.outBuffer := by
  unfold afterExtend
  split
  · rfl
  · exact drainPhase_frame c _

theorem receiveContent_frame (c : Connection α) (v : Nat)
    (cont : Option α) :
    (c.receiveContent v cont).conn.outBuffer = c.outBuffer := by
  unfold receiveContent
  split
  · rfl
  · exact afterExtend_frame c _ v cont

end Connection

/-! ### Vector clock lemmas -/

theorem forall_lt_succ_iff (n : Nat) (P : Nat → Prop) :
    (∀ i, i < n + 1 → P i) ↔ P 0 ∧ ∀ i, i < n → P (i + 1) := by
  constructor
  · intro h
    exact ⟨h 0 (by omega), fun i hi => h (i + 1) (by omega)⟩
  · rintro ⟨h0, h⟩ i hi
    cases i with
    | zero => exact h0
    | succ j => exact h j (by omega)

theorem exists_lt_succ_iff (n : Nat) (P : Nat → Prop) :
    (∃ i, i < n + 1 ∧ P i) ↔ P 0 ∨ ∃ i, i < n ∧ P (i + 1) := by
  constructor
  · rintro ⟨i, hi, hp⟩
    cases i with
    | zero => exact Or.inl hp
    | succ j => exact Or.inr ⟨j, by omega, hp⟩
  · rintro (h0 | ⟨i, hi, hp⟩)
    · exact ⟨0, by omega, h0⟩
    · exact ⟨i + 1, by omega, hp⟩

namespace VectorTimestamp

/-- The `__lt__` loop computes: every component of `a` is at most the
matching component of `b`, and either `res` was already set or some
component is strictly smaller. -/
theorem ltLoop_true_iff :
    ∀ (a b : List Int) (res : Bool), a.length = b.length →
      (ltLoop a b res = true ↔
        ((∀ i, i < a.length → a.getD i 0 ≤ b.getD i 0) ∧
          (res = true ∨ ∃ i, i < a.length ∧ a.getD i 0 < b.getD i 0))) := by
  intro a
  induction a with
  | nil =>
    intro b res hlen
    have hb : b = [] := List.length_eq_zero.mp (by simpa using hlen.symm)
    subst hb
    show res = true ↔ _
    simp
  | cons x xs ih =>
    intro b res hlen
    cases b with
    | nil => simp at hlen
    | cons y ys =>
      have hlen' : xs.length = ys.length := by simpa using hlen
      have hlenx : (x :: xs).length = xs.length + 1 := rfl
      rw [hlenx, forall_lt_succ_iff, exists_lt_succ_iff]
      simp only [List.getD_cons_zero, List.getD_cons_succ]
      by_cases hxy : x < y
      · have hstep : ltLoop (x :: xs) (y :: ys) res = ltLoop xs ys true := by
          show (if x < y then _ else _) = _
          rw [if_pos hxy]
        rw [hstep, ih ys true hlen']
        constructor
        · rintro ⟨hle, -⟩
          exact ⟨⟨le_of_lt hxy, hle⟩, Or.inr (Or.inl hxy)⟩
        · rintro ⟨⟨-, hle⟩, -⟩
          exact ⟨hle, Or.inl rfl⟩
      · by_cases hyx : y < x
        · have hstep : ltLoop (x :: xs) (y :: ys) res = false := by
            show (if x < y then _ else _) = _
            rw [if_neg hxy, if_pos hyx]
          rw [hstep]
          constructor
          · intro h
            cases h
          · rintro ⟨⟨h0, -⟩, -⟩
            omega
        · have hxyeq : x = y := by omega
          have hstep : ltLoop (x :: xs) (y :: ys) res = ltLoop xs ys res := by
            show (if x < y then _ else _) = _
            rw [if_neg hxy, if_neg hyx]
          rw [hstep, ih ys res hlen']
          constructor
          · rintro ⟨hle, hor⟩
            exact ⟨⟨by omega, hle⟩, by
              rcases hor with h | h
              · exact Or.inl h
              · exact Or.inr (Or.inr h)⟩
          · rintro ⟨⟨-, hle⟩, hor⟩
            refine ⟨hle, ?_⟩
            rcases hor with h | h | h
            · exact Or.inl h
            · exact absurd h (by omega)
            · exact Or.inr h

end VectorTimestamp

/-! ### Dictionary lemmas for `get_history` -/

theorem lookup_cons_self {β : Type} (k : String) (b : β)
    (m : List (String × β)) : List.lookup k ((k, b) :: m) = some b := by
  simp [List.lookup]

theorem lookup_cons_ne {β : Type} {j k : String} (h : j ≠ k) (b : β)
    (m : List (String × β)) :
    List.lookup j ((k, b) :: m) = List.lookup j m := by
  have hb : (j == k) = false := beq_false_of_ne h
  simp [List.lookup, hb]

theorem lookup_eq_none_iff {β : Type} (m : List (String × β)) (j : String) :
    List.lookup j m = none ↔ j ∉ dictKeys m := by
  induction m with
  | nil => simp [dictKeys]
  | cons q m ih =>
    rcases q with ⟨k, b⟩
    by_cases h : j = k
    · subst h
      rw [lookup_cons_self]
      simp [dictKeys]
    · rw [lookup_cons_ne h, ih]
      simp [dictKeys, h]

theorem lookup_map_update {β : Type} (k : String) (f : β → β) :
    ∀ (m : List (String × β)) (j : String),
      List.lookup j (m.map (fun q => if q.1 == k then (q.1, f q.2) else q)) =
        match List.lookup j m with
        | some r => some (if j = k then f r else r)
        | none => none := by
  intro m
  induction m with
  | nil => intro j; rfl
  | cons q m ih =>
    intro j
    rcases q with ⟨k', b⟩
    rw [List.map_cons]
    by_cases hk' : k' = k
    · have hbk : (k' == k) = true := by simpa using hk'
      rw [if_pos hbk]
      by_cases hj : j = k'
      · subst hj
        rw [lookup_cons_self, lookup_cons_self]
        simp [hk']
      · rw [lookup_cons_ne hj, lookup_cons_ne hj, ih]
    · have hbk : (k' == k) = false := beq_false_of_ne hk'
      rw [if_neg (by simp [hbk])]
      by_cases hj : j = k'
      · subst hj
        rw [lookup_cons_self, lookup_cons_self]
        simp [hk']
      · rw [lookup_cons_ne hj, lookup_cons_ne hj, ih]

theorem lookup_append_single {β : Type} (k : String) (x : β) :
    ∀ (m : List (String × β)) (j : String),
      List.lookup j (m ++ [(k, x)]) =
        match List.lookup j m with
        | some r => some r
        | none => if j = k then some x else none := by
  intro m
  induction m with
  | nil =>
    intro j
    by_cases hj : j = k
    · subst hj
      rw [List.nil_append, lookup_cons_self]
      simp
    · rw [List.nil_append, lookup_cons_ne hj]
      simp [hj]
  | cons q m ih =>
    intro j
    rcases q with ⟨k', b⟩
    by_cases hj : j = k'
    · subst hj
      rw [List.cons_append, lookup_cons_self, lookup_cons_self]
    · rw [List.cons_append, lookup_cons_ne hj, lookup_cons_ne hj, ih]

theorem any_key_iff {β : Type} (m : List (String × β)) (k : String) :
    (m.any (fun q => q.1 == k) = true) ↔ k ∈ dictKeys m := by
  rw [List.any_eq_true]
  unfold dictKeys
  rw [List.mem_map]
  constructor
  · rintro ⟨q, hq, hqk⟩
    exact ⟨q, hq, by simpa using hqk⟩
  · rintro ⟨q, hq, hqk⟩
    exact ⟨q, hq, by simpa using hqk⟩

theorem lookup_dictAppendTo (m : List (String × List String))
    (k v j : String) :
    List.lookup j (dictAppendTo m k v) =
      if j = k then some ((List.lookup k m).getD [] ++ [v])
      else List.lookup j m := by
  unfold dictAppendTo
  split
  · rename_i hany
    have hmap := lookup_map_update k (fun l => l ++ [v]) m j
    simp only at hmap
    rw [hmap]
    have hk : k ∈ dictKeys m := (any_key_iff m k).mp hany
    by_cases hj : j = k
    · subst hj
      rcases hr : List.lookup j m with _ | r
      · exact absurd hk (by rw [← lookup_eq_none_iff]; exact hr)
      · simp [hr]
    · rcases hr : List.lookup j m with _ | r <;> simp [hj]
  · rename_i hany
    have hk : k ∉ dictKeys m := fun h => hany ((any_key_iff m k).mpr h)
    rw [lookup_append_single]
    by_cases hj : j = k
    · subst hj
      have hn : List.lookup j m = none := (lookup_eq_none_iff m j).mpr hk
      simp [hn]
    · rcases hr : List.lookup j m with _ | r <;> simp [hj]

theorem lookup_dictSet {β : Type} (m : List (String × β)) (k : String)
    (v : β) (j : String) :
    List.lookup j (dictSet m k v) =
      if j = k then some v else List.lookup j m := by
  unfold dictSet
  split
  · rename_i hany
    have hmap := lookup_map_update k (fun _ => v) m j
    simp only at hmap
    rw [hmap]
    have hk : k ∈ dictKeys m := (any_key_iff m k).mp hany
    by_cases hj : j = k
    · subst hj
      rcases hr : List.lookup j m with _ | r
      · exact absurd hk (by rw [← lookup_eq_none_iff]; exact hr)
      · simp [hr]
    · rcases hr : List.lookup j m with _ | r <;> simp [hj]
  · rename_i hany
    have hk : k ∉ dictKeys m := fun h => hany ((any_key_iff m k).mpr h)
    rw [lookup_append_single]
    by_cases hj : j = k
    · subst hj
      have hn : List.lookup j m = none := (lookup_eq_none_iff m j).mpr hk
      simp [hn]
    · rcases hr : List.lookup j m with _ | r <;> simp [hj]

theorem mem_keys_of_lookup {β : Type} {m : List (String × β)} {j : String}
    {b : β} (h : List.lookup j m = some b) : j ∈ dictKeys m := by
  by_contra hc
  rw [(lookup_eq_none_iff m j).mpr hc] at h
  cases h

namespace EventStore

theorem buildDeps_proj (edges : List DependedRow) :
    ∀ (m1 m2 : List (String × List String)),
      edges.foldl
        (fun acc d =>
          (dictAppendTo acc.1 d.event_id d.depended_event_id,
           dictAppendTo acc.2 d.depended_event_id d.event_id)) (m1, m2) =
      (edges.foldl (fun m d => dictAppendTo m d.event_id d.depended_event_id) m1,
       edges.foldl (fun m d => dictAppendTo m d.depended_event_id d.event_id) m2) := by
  induction edges with
  | nil => intro m1 m2; rfl
  | cons d rest ih =>
    intro m1 m2
    rw [List.foldl_cons, List.foldl_cons, List.foldl_cons]
    exact ih _ _

/-- Running one `dictAppendTo`-building loop over the edges: the final
binding of `j` is everything already bound followed by the selected
field of the matching edges, in order; `j` is unbound exactly when it
was unbound and no edge matches. -/
theorem lookup_foldl_appendTo (key val : DependedRow → String) :
    ∀ (edges : List DependedRow) (m : List (String × List String))
      (j : String),
      ((List.lookup j
          (edges.foldl (fun m d => dictAppendTo m (key d) (val d)) m)).getD []
        = (List.lookup j m).getD []
            ++ (edges.filter (fun d => key d == j)).map val) ∧
      (List.lookup j
          (edges.foldl (fun m d => dictAppendTo m (key d) (val d)) m) = none
        ↔ List.lookup j m = none ∧
            edges.filter (fun d => key d == j) = []) := by
  intro edges
  induction edges with
  | nil => intro m j; simp
  | cons d rest ih =>
    intro m j
    rw [List.foldl_cons, List.filter_cons]
    obtain ⟨ga, gb⟩ := ih (dictAppendTo m (key d) (val d)) j
    by_cases hd : key d = j
    · have hkd : (key d == j) = true := by simpa using hd
      rw [if_pos hkd]
      constructor
      · rw [ga, lookup_dictAppendTo, if_pos hd.symm, hd]
        simp [List.append_assoc]
      · rw [gb, lookup_dictAppendTo, if_pos hd.symm]
        simp
    · have hkd : (key d == j) = false := by simpa using hd
      rw [if_neg (by simp [hkd])]
      constructor
      · rw [ga, lookup_dictAppendTo, if_neg (fun h => hd h.symm)]
      · rw [gb, lookup_dictAppendTo, if_neg (fun h => hd h.symm)]

/-- Keys of a `dictSet`-building loop: everything already present plus
the keys of the rows. -/
theorem mem_keys_foldl_dictSet {β : Type} (key : EventRow → String)
    (val : EventRow → β) :
    ∀ (rows : List EventRow) (m : List (String × β)) (j : String),
      (j ∈ dictKeys (rows.foldl (fun m r => dictSet m (key r) (val r)) m) ↔
        j ∈ dictKeys m ∨ ∃ r ∈ rows, key r = j) := by
  intro rows
  induction rows with
  | nil => intro m j; simp
  | cons r rest ih =>
    intro m j
    rw [List.foldl_cons, ih]
    have hks : j ∈ dictKeys (dictSet m (key r) (val r)) ↔
        j ∈ dictKeys m ∨ key r = j := by
      constructor
      · intro h
        rcases hl : List.lookup j (dictSet m (key r) (val r)) with _ | b
        · exact absurd h (by rw [← lookup_eq_none_iff]; exact hl)
        · rw [lookup_dictSet] at hl
          by_cases hj : j = key r
          · exact Or.inr hj.symm
          · rw [if_neg hj] at hl
            exact Or.inl (mem_keys_of_lookup hl)
      · rintro (h | h)
        · rcases hl : List.lookup j m with _ | b
          · exact absurd h (by rw [← lookup_eq_none_iff]; exact hl)
          · refine mem_keys_of_lookup (b := if j = key r then val r else b) ?_
            rw [lookup_dictSet]
            by_cases hj : j = key r <;> simp [hj, hl]
        · refine mem_keys_of_lookup (b := val r) ?_
          rw [lookup_dictSet, if_pos h.symm]
    rw [hks]
    constructor
    · rintro ((h | h) | ⟨r', hr', hk⟩)
      · exact Or.inl h
      · exact Or.inr ⟨r, List.mem_cons_self r rest, h⟩
      · exact Or.inr ⟨r', List.mem_cons_of_mem r hr', hk⟩
    · rintro (h | ⟨r', hr', hk⟩)
      · exact Or.inl (Or.inl h)
      · rcases List.mem_cons.mp hr' with rfl | hr'
        · exact Or.inl (Or.inr hk)
        · exact Or.inr ⟨r', hr', hk⟩

/-- A `dictSet`-building loop leaves a key untouched when no row binds
it. -/
theorem lookup_foldl_dictSet_skip {β : Type} (key : EventRow → String)
    (val : EventRow → β) :
    ∀ (rows : List EventRow) (m : List (String × β)) (j : String),
      (∀ r ∈ rows, key r ≠ j) →
      List.lookup j (rows.foldl (fun m r => dictSet m (key r) (val r)) m) =
        List.lookup j m := by
  intro rows
  induction rows with
  | nil => intro m j _; rfl
  | cons r rest ih =>
    intro m j hnone
    rw [List.foldl_cons,
      ih _ j (fun r' hr' => hnone r' (List.mem_cons_of_mem r hr')),
      lookup_dictSet,
      if_neg (fun h => hnone r (List.mem_cons_self r rest) h.symm)]

/-- A `dictSet`-building loop over rows with pairwise distinct keys
binds `j` to the value of the row with key `j`, when there is one. -/
theorem lookup_foldl_dictSet {β : Type} (key : EventRow → String)
    (val : EventRow → β) :
    ∀ (rows : List EventRow) (m : List (String × β)) (j : String),
      (rows.map key).Nodup →
      List.lookup j (rows.foldl (fun m r => dictSet m (key r) (val r)) m) =
        match rows.find? (fun r => key r == j) with
        | some r => some (val r)
        | none => List.lookup j m := by
  intro rows
  induction rows with
  | nil => intro m j _; rfl
  | cons r rest ih =>
    intro m j hnodup
    have hnodup' : (rest.map key).Nodup := by
      rw [List.map_cons] at hnodup
      exact hnodup.of_cons
    rw [List.foldl_cons]
    by_cases hj : key r = j
    · have hnomore : ∀ r' ∈ rest, key r' ≠ j := by
        intro r' hr' hk
        rw [List.map_cons] at hnodup
        exact (List.nodup_cons.mp hnodup).1 (hj ▸ hk ▸ List.mem_map_of_mem key hr')
      rw [lookup_foldl_dictSet_skip key val rest _ j hnomore,
        lookup_dictSet, if_pos hj.symm,
        List.find?_cons_of_pos _ (by simpa using hj)]
    · have hset : List.lookup j (dictSet m (key r) (val r)) =
          List.lookup j m := by
        rw [lookup_dictSet, if_neg (fun h => hj h.symm)]
      rw [ih _ j hnodup', List.find?_cons_of_neg _ (by simpa using hj), hset]

/-- Under pairwise distinct keys, `find?` locates exactly the member
with the sought key. -/
theorem find?_of_mem_nodup (key : EventRow → String) :
    ∀ (rows : List EventRow), (rows.map key).Nodup →
      ∀ r ∈ rows, rows.find? (fun r' => key r' == key r) = some r := by
  intro rows
  induction rows with
  | nil => intro _ r hr; cases hr
  | cons r0 rest ih =>
    intro hnodup r hr
    have hnodup' : (rest.map key).Nodup := by
      rw [List.map_cons] at hnodup
      exact hnodup.of_cons
    rcases List.mem_cons.mp hr with rfl | hr'
    · exact List.find?_cons_of_pos _ (by simp)
    · have hne : key r0 ≠ key r := by
        intro h
        rw [List.map_cons] at hnodup
        exact (List.nodup_cons.mp hnodup).1 (h ▸ List.mem_map_of_mem key hr')
      rw [List.find?_cons_of_neg _ (by simpa using hne), ih hnodup' r hr']

theorem dependenciesDict_eq (s : EventStore) (entry : String) :
    s.dependenciesDict entry =
      (s.gatheredEdges entry).foldl
        (fun m d => dictAppendTo m d.event_id d.depended_event_id) [] := by
  unfold EventStore.dependenciesDict EventStore.buildDeps
  rw [EventStore.buildDeps_proj]

theorem invertedDict_eq (s : EventStore) (entry : String) :
    s.invertedDict entry =
      (s.gatheredEdges entry).foldl
        (fun m d => dictAppendTo m d.depended_event_id d.event_id) [] := by
  unfold EventStore.invertedDict EventStore.buildDeps
  rw [EventStore.buildDeps_proj]

/-- A key is bound in the `dependencies` dict exactly when some gathered
edge leaves it. -/
theorem mem_depKeys_iff (s : EventStore) (entry : String) (id : String) :
    id ∈ dictKeys (s.dependenciesDict entry) ↔
      ∃ d ∈ s.gatheredEdges entry, d.event_id = id := by
  have h2 := (EventStore.lookup_foldl_appendTo (fun d => d.event_id)
    (fun d => d.depended_event_id) (s.gatheredEdges entry) [] id).2
  simp only at h2
  rw [dependenciesDict_eq]
  constructor
  · intro h
    by_contra hc
    push_neg at hc
    have hfil : (s.gatheredEdges entry).filter
        (fun d => d.event_id == id) = [] :=
      List.filter_eq_nil_iff.mpr (fun d hd => by simpa using hc d hd)
    have hnone := h2.mpr ⟨rfl, hfil⟩
    exact (lookup_eq_none_iff _ _).mp hnone h
  · rintro ⟨d, hd, hde⟩
    by_contra hc
    have hnone := (lookup_eq_none_iff _ _).mpr hc
    obtain ⟨-, hfil⟩ := h2.mp hnone
    have hmem : d ∈ (s.gatheredEdges entry).filter
        (fun d => d.event_id == id) :=
      List.mem_filter.mpr ⟨hd, by simpa using hde⟩
    rw [hfil] at hmem
    cases hmem

/-- A gathered edge of an entry is exactly a stored edge leaving one of
the entry's stored events. -/
theorem mem_gatheredEdges_iff (s : EventStore) (entry : String)
    (d : DependedRow) :
    d ∈ s.gatheredEdges entry ↔
      d ∈ s.depended_events ∧
        ∃ r ∈ s.eventsList entry, d.event_id = r.event_id := by
  unfold EventStore.gatheredEdges
  rw [List.mem_flatMap]
  constructor
  · rintro ⟨r, hr, hdr⟩
    obtain ⟨hmem, hk⟩ := List.mem_filter.mp hdr
    exact ⟨hmem, r, hr, by simpa using hk⟩
  · rintro ⟨hmem, r, hr, hk⟩
    exact ⟨r, hr, List.mem_filter.mpr ⟨hmem, by simpa using hk⟩⟩

theorem eventsDict_eq (s : EventStore) (entry : String) :
    s.eventsDict entry =
      (s.eventsList entry).foldl
        (fun m r => dictSet m r.event_id
          (EventStore.mkEvent (s.dependenciesDict entry) r)) [] := rfl

/-- A key is bound in the `events` dict exactly when the entry has a
stored event with that id. -/
theorem mem_evsKeys_iff (s : EventStore) (entry : String) (id : String) :
    id ∈ dictKeys (s.eventsDict entry) ↔
      ∃ r ∈ s.eventsList entry, r.event_id = id := by
  have h := EventStore.mem_keys_foldl_dictSet (fun r => r.event_id)
    (fun r => EventStore.mkEvent (s.dependenciesDict entry) r)
    (s.eventsList entry) [] id
  simp only at h
  rw [eventsDict_eq]
  rw [h]
  simp [dictKeys]

/-- With the table's primary-key uniqueness, the `events` dict maps each
stored event id of the entry to the reconstructed `Event` of its row. -/
theorem lookup_eventsDict (s : EventStore) (entry : String)
    (hnodup : ((s.eventsList entry).map (fun r => r.event_id)).Nodup)
    (r : EventRow) (hr : r ∈ s.eventsList entry) :
    List.lookup r.event_id (s.eventsDict entry) =
      some (EventStore.mkEvent (s.dependenciesDict entry) r) := by
  have h := EventStore.lookup_foldl_dictSet (fun r => r.event_id)
    (fun r => EventStore.mkEvent (s.dependenciesDict entry) r)
    (s.eventsList entry) [] r.event_id hnodup
  simp only at h
  rw [eventsDict_eq, h,
    EventStore.find?_of_mem_nodup (fun r => r.event_id)
      (s.eventsList entry) hnodup r hr]

end EventStore

/-! ### Claim theorems -/

open Connection OutboundBuffer

/-- C1: within one `ReliableLink` connection, across any sequence of
receive calls in which content frames arrive in arbitrary order
(duplicates and retransmissions included — each frame authentically
carries the payload the peer sent at its tagged 1-based position `p`),
the payloads released to the application layer are exactly
`p 1, p 2, …, p k` in that order (with `k` the final window start):
strictly increasing position order, no gaps, no duplicates — the exact
order they were sent on that link. -/
theorem C1_in_order_delivery (p : Nat → α) (w : Nat) (t : Int)
    (fs : List (Nat × Option α)) (hw : 0 < w)
    (hfs : ∀ f ∈ fs, 1 ≤ f.1 ∧ f.2 = some (p f.1)) :
    (runFrames (Connection.init α w t) fs).2 =
      (List.range' 1
        ((runFrames (Connection.init α w t) fs).1.inBuffer.start)).map
        (fun n => some (p n)) := by
  obtain ⟨_, _, _, h4⟩ := runFrames_spec p fs (Connection.init α w t)
    (OutboundBuffer.WF_init w hw) (OutboundBuffer.SlotsOK_init p w) hfs
  have h0 : (Connection.init α w t).inBuffer.start = 0 := rfl
  rw [h0] at h4
  simpa using h4

/-- Witness for C1: frames for positions 2 then 1 arrive out of order;
the link releases payload 1 then payload 2. -/
theorem C1_witness :
    (∀ f ∈ [((2 : Nat), some 2), ((1 : Nat), (some 1 : Option Nat))],
      1 ≤ f.1 ∧ f.2 = some f.1) ∧
    (runFrames (Connection.init Nat 2 5) [(2, some 2), (1, some 1)]).2 =
      (List.range' 1
        ((runFrames (Connection.init Nat 2 5)
          [(2, some 2), (1, some 1)]).1.inBuffer.start)).map
        (fun n => some n) :=
  ⟨by decide,
   C1_in_order_delivery (fun n => n) 2 5 [(2, some 2), (1, some 1)]
     (by decide) (by decide)⟩

/-- C2 counterexample: with a single stored `update` event "B" of entry
"x" whose recorded predecessor "A" has not arrived, `get_history`
returns **no** roots (B has a recorded outgoing edge), whereas the claim
— roots are the locally stored events with no predecessor event present
in the locally known event set — makes B a root, as `specRootEvents`
(the claim's wording) shows. -/
theorem C2_counterexample :
    (EventStore.storeMissingPredecessor.get_history "x").root_events = [] ∧
    EventStore.storeMissingPredecessor.specRootEvents "x" =
      [{ event_id := "B", entry_id := "x", creation_timestamp := 0,
         vector_timestamp := [], bloom_filter := [], bloom_counter := 0,
         lamport_timestamp := 0, action := "update", value := "v",
         depended_event_ids := ["A"] }] := ⟨rfl, rfl⟩

/-- C2 (amended): `get_history` builds the forward adjacency
(`inverted_dependencies`: each id maps, in edge order, to the gathered
edges' source events that depend on it), and `root_events` consists
exactly of the entry's locally stored events with **no recorded outgoing
dependency edge** (events that declare no dependencies) — an event whose
recorded predecessors are merely absent from the local store is not a
root.  Zero, one, or several roots are all possible and none is an
error.  The uniqueness hypothesis reflects the events table's PRIMARY
KEY. -/
theorem C2_history_roots_and_adjacency (s : EventStore) (entry : String)
    (hnodup : ((s.eventsList entry).map (fun r => r.event_id)).Nodup) :
    (∀ e, e ∈ (s.get_history entry).root_events ↔
      ∃ r, r ∈ s.eventsList entry ∧
        (∀ d ∈ s.depended_events, d.event_id ≠ r.event_id) ∧
        e = EventStore.mkEvent (s.dependenciesDict entry) r) ∧
    (∀ dep, (List.lookup dep
        (s.get_history entry).inverted_dependencies).getD [] =
      ((s.gatheredEdges entry).filter
        (fun ed => ed.depended_event_id == dep)).map
        (fun ed => ed.event_id)) := by
  constructor
  · intro e
    have hroot : (s.get_history entry).root_events =
        ((dictKeys (s.eventsDict entry)).filter
          (fun k =>
            !(dictKeys (s.dependenciesDict entry)).contains k)).filterMap
          (fun id => List.lookup id (s.eventsDict entry)) := rfl
    rw [hroot, List.mem_filterMap]
    constructor
    · rintro ⟨id, hid, hlook⟩
      obtain ⟨hkeys, hcond⟩ := List.mem_filter.mp hid
      have hnotdep : id ∉ dictKeys (s.dependenciesDict entry) := by
        intro h
        have hc : (dictKeys (s.dependenciesDict entry)).contains id =
            true := List.elem_iff.mpr h
        rw [hc] at hcond
        simp at hcond
      obtain ⟨r, hr, hrid⟩ := (EventStore.mem_evsKeys_iff s entry id).mp hkeys
      have hval := EventStore.lookup_eventsDict s entry hnodup r hr
      rw [hrid] at hval
      rw [hval] at hlook
      refine ⟨r, hr, ?_, ?_⟩
      · intro d hd hde
        apply hnotdep
        rw [EventStore.mem_depKeys_iff]
        exact ⟨d, (EventStore.mem_gatheredEdges_iff s entry d).mpr
          ⟨hd, r, hr, by rw [hde, hrid]⟩, by rw [hde, hrid]⟩
      · injection hlook with h
        exact h.symm
    · rintro ⟨r, hr, hnoedge, he⟩
      refine ⟨r.event_id, ?_, ?_⟩
      · rw [List.mem_filter]
        refine ⟨(EventStore.mem_evsKeys_iff s entry r.event_id).mpr
          ⟨r, hr, rfl⟩, ?_⟩
        have hnot : r.event_id ∉ dictKeys (s.dependenciesDict entry) := by
          intro h
          obtain ⟨d, hd, hde⟩ :=
            (EventStore.mem_depKeys_iff s entry r.event_id).mp h
          obtain ⟨hmem, -⟩ :=
            (EventStore.mem_gatheredEdges_iff s entry d).mp hd
          exact hnoedge d hmem hde
        have hc : (dictKeys (s.dependenciesDict entry)).contains
            r.event_id = false := by
          rcases hcc : (dictKeys (s.dependenciesDict entry)).contains
              r.event_id
          · rfl
          · exact absurd (List.elem_iff.mp hcc) hnot
        rw [hc]
        rfl
      · rw [EventStore.lookup_eventsDict s entry hnodup r hr, he]
  · intro dep
    have hinv : (s.get_history entry).inverted_dependencies =
        s.invertedDict entry := rfl
    rw [hinv, EventStore.invertedDict_eq]
    have h := (EventStore.lookup_foldl_appendTo
      (fun d => d.depended_event_id) (fun d => d.event_id)
      (s.gatheredEdges entry) [] dep).1
    simp only at h
    rw [h]
    simp

/-- Witness for C2 (amended): a store whose entry "x" holds a root-less
update "B" (recorded edge to the missing "A") — no event of "x" is free
of recorded edges, so the roots are empty, and the adjacency binds "A"
to ["B"]. -/
theorem C2_witness :
    ((EventStore.storeMissingPredecessor.eventsList "x").map
      (fun r => r.event_id)).Nodup ∧
    (∀ e, e ∈ (EventStore.storeMissingPredecessor.get_history "x").root_events
      ↔ ∃ r, r ∈ EventStore.storeMissingPredecessor.eventsList "x" ∧
        (∀ d ∈ EventStore.storeMissingPredecessor.depended_events,
          d.event_id ≠ r.event_id) ∧
        e = EventStore.mkEvent
          (EventStore.storeMissingPredecessor.dependenciesDict "x") r) :=
  ⟨by decide,
   (C2_history_roots_and_adjacency EventStore.storeMissingPredecessor "x"
     (by decide)).1⟩

/-- C3: `send` on a full window (`window_size` unacknowledged payloads,
i.e. `size = capacity`) raises `OutOfResourceError` leaving everything
untouched; otherwise it appends `(now + timeout, payload)` to the send
buffer and transmits exactly one content frame tagged with the payload's
1-based buffer position (`end + 1` before the call), a tag that
increases monotonically across the link's lifetime: each successful
`send` raises the window end by one while receiving frames and waking up
never change it. -/
theorem C3_send_backpressure (c : Connection α) (x : α) (t tm : Int)
    (v ack : Nat) (cont : Option α) :
    (c.outBuffer.capacity ≤ c.outBuffer.size →
      c.send x t = (c, [], some PyErr.outOfResource)) ∧
    (c.outBuffer.size < c.outBuffer.capacity →
      ∃ b, c.outBuffer.append (some (t + c.timeout, x)) = Except.ok b ∧
        c.send x t =
          ({ c with outBuffer := b },
            [contentMsg (c.outBuffer.bufEnd + 1) x], none)) ∧
    ((c.send x t).2.2 = none →
      (c.send x t).1.outBuffer.bufEnd = c.outBuffer.bufEnd + 1) ∧
    (c.receiveContent v cont).conn.outBuffer = c.outBuffer ∧
    (ack ≤ c.outBuffer.bufEnd →
      (c.receiveAck ack).1.outBuffer.bufEnd = c.outBuffer.bufEnd) ∧
    (c.wakeUp tm).1.outBuffer.bufEnd = c.outBuffer.bufEnd := by
  refine ⟨?_, ?_, ?_, receiveContent_frame c v cont, ?_, ?_⟩
  · intro h
    unfold Connection.send
    rw [show c.outBuffer.append (some (t + c.timeout, x)) =
      Except.error PyErr.outOfResource from by
        unfold OutboundBuffer.append
        rw [if_pos h]]
  · intro h
    rcases hap : c.outBuffer.append (some (t + c.timeout, x)) with e | b
    · exact absurd hap (by
        unfold OutboundBuffer.append
        rw [if_neg (by omega)]
        simp)
    · refine ⟨b, rfl, ?_⟩
      have hsend : c.send x t =
          ({ c with outBuffer := b }, [contentMsg b.bufEnd x], none) := by
        unfold Connection.send
        rw [hap]
      rw [hsend]
      obtain ⟨h1, h2, h3, h4, h5⟩ := append_ok hap
      have htag : b.bufEnd = c.outBuffer.bufEnd + 1 := by
        show b.start + b.size = (c.outBuffer.start + c.outBuffer.size) + 1
        omega
      rw [htag]
  · rcases hap : c.outBuffer.append (some (t + c.timeout, x)) with e | b
    · intro h
      have hsd : (c.send x t).2.2 = some e := by
        unfold Connection.send
        rw [hap]
      rw [hsd] at h
      cases h
    · intro _
      obtain ⟨h1, h2, h3, h4, h5⟩ := append_ok hap
      have hsd : (c.send x t).1.outBuffer = b := by
        unfold Connection.send
        rw [hap]
      rw [hsd]
      show b.start + b.size = (c.outBuffer.start + c.outBuffer.size) + 1
      omega
  · intro h
    unfold Connection.receiveAck
    by_cases h1 : ack ≤ c.outBuffer.start
    · rw [if_pos h1]
    · rw [if_neg h1]
      have h2 : ¬c.outBuffer.bufEnd < ack := by omega
      rw [if_neg h2]
      exact ackDropLoop_bufEnd ack _ c.outBuffer h
  · unfold Connection.wakeUp
    by_cases h0 : c.outBuffer.size = 0
    · rw [if_pos h0]
    · rw [if_neg h0]
      obtain ⟨g1, g2⟩ := wakeLoop_shape tm c.timeout
        (c.outBuffer.bufEnd - c.outBuffer.start) c.outBuffer
        c.outBuffer.start []
      show (wakeLoop tm c.timeout c.outBuffer c.outBuffer.start []
          (c.outBuffer.bufEnd - c.outBuffer.start)).1.start +
          (wakeLoop tm c.timeout c.outBuffer c.outBuffer.start []
            (c.outBuffer.bufEnd - c.outBuffer.start)).1.size =
        c.outBuffer.start + c.outBuffer.size
      rw [g1, g2]

/-- Witness for C3: on a window of size 1 holding one unacked payload a
second `send` is rejected unchanged; on a fresh window of size 2 the
first `send` appends the deadline-tagged payload and emits the frame
tagged with position 1 (= `end + 1`). -/
theorem C3_witness :
    (((Connection.init Nat 1 5).send 7 0).1.send 9 2 =
      (((Connection.init Nat 1 5).send 7 0).1, [],
        some PyErr.outOfResource)) ∧
    ∃ b, (Connection.init Nat 2 5).outBuffer.append
        (some ((0 : Int) + (Connection.init Nat 2 5).timeout, 7)) =
          Except.ok b ∧
      (Connection.init Nat 2 5).send 7 0 =
        ({ Connection.init Nat 2 5 with outBuffer := b },
          [contentMsg ((Connection.init Nat 2 5).outBuffer.bufEnd + 1) 7],
          none) :=
  ⟨(C3_send_backpressure (((Connection.init Nat 1 5).send 7 0).1) 9 2 0 0 0
      none).1 (by decide),
   (C3_send_backpressure (Connection.init Nat 2 5) 7 0 0 0 0 none).2.1
      (by decide)⟩

/-- C4 (code-bug evidence): an ack strictly beyond the window end — here
ack 1 on a fresh connection whose window end is 0 — reaches the
`raise ProtocolError("acknowledged unsend message")` statement.
`ProtocolError` is an undefined name in `messenger.py` (the module
defines `ProtocollError` and imports nothing of that name), so Python
raises `NameError`, not the declared protocol-violation error; the
failure is still fatal but of the wrong kind. -/
theorem C4_ack_beyond_window_hits_undefined_name :
    (Connection.init Nat 2 5).receiveAck 1 =
      (Connection.init Nat 2 5, some PyErr.nameErrorRaise) := rfl

/-- C5 counterexample: a content frame whose sequence number (3) lies
beyond the receive buffer's capacity (window 2, start 0) is **not**
silently ignored — `receive` raises `OutOfResourceError` from the
window-extension loop instead of returning normally. -/
theorem C5_counterexample :
    ((Connection.init Nat 2 5).receiveContent 3 (some 9)).err =
      some PyErr.outOfResource ∧
    ((Connection.init Nat 2 5).receiveContent 3 (some 9)).delivered =
      [] := ⟨rfl, rfl⟩

/-- C5 (amended): a content frame whose sequence number exceeds
`window start + capacity` makes `receive` raise `OutOfResourceError`
while extending the receive window (delivering nothing and emitting no
ack), rather than being silently ignored. -/
theorem C5_beyond_capacity_raises (c : Connection α) (v : Nat)
    (cont : Option α) (hWF : c.inBuffer.WF)
    (hv : c.inBuffer.start + c.inBuffer.capacity < v) :
    (c.receiveContent v cont).err = some PyErr.outOfResource ∧
    (c.receiveContent v cont).delivered = [] ∧
    (c.receiveContent v cont).emitted = [] := by
  obtain ⟨hl, hc, hs⟩ := hWF
  have hend : c.inBuffer.bufEnd = c.inBuffer.start + c.inBuffer.size := rfl
  have hcond : c.inBuffer.bufEnd < v := by omega
  unfold Connection.receiveContent
  rw [if_pos hcond]
  rcases hx : extendLoop c.inBuffer (v - c.inBuffer.bufEnd) with ⟨b1, e1⟩
  have he1 : e1 = some PyErr.outOfResource := by
    have hov := extendLoop_overflow (v - c.inBuffer.bufEnd) c.inBuffer hs
      (by omega)
    rw [hx] at hov
    exact hov
  subst he1
  exact ⟨rfl, rfl, rfl⟩

/-- Witness for C5 (amended): window 2, fresh connection, frame 3. -/
theorem C5_witness :
    ((Connection.init Nat 2 5).inBuffer.WF ∧
      (Connection.init Nat 2 5).inBuffer.start +
        (Connection.init Nat 2 5).inBuffer.capacity < 3) ∧
    ((Connection.init Nat 2 5).receiveContent 3 (some 9)).emitted = [] :=
  ⟨⟨⟨by decide, by decide, by decide⟩, by decide⟩,
   (C5_beyond_capacity_raises (Connection.init Nat 2 5) 3 (some 9)
     ⟨by decide, by decide, by decide⟩ (by decide)).2.2⟩

/-- C9 (code-bug evidence): on an empty buffer of capacity 2
(`start = 0`, `size = 0`) the index `start + size = 0` lies outside the
occupied range, yet both `__getitem__` and `__setitem__` accept it (the
source checks `i > start + size` instead of `i ≥ start + size`),
contradicting their docstring "throws an IndexError if value not
currently in the buffer"; index 1 is rejected as documented. -/
theorem C9_window_end_index_accepted :
    (OutboundBuffer.init Nat 2).getItem 0 = Except.ok none ∧
    (OutboundBuffer.init Nat 2).setItem 0 (some 7) =
      Except.ok
        { capacity := 2, values := [some 7, none], start := 0, size := 0 } ∧
    (OutboundBuffer.init Nat 2).getItem 1 =
      Except.error PyErr.indexError := ⟨rfl, rfl, rfl⟩

/-- C10: `Connection.send` is atomic on failure — whenever the send
buffer is full, `append` raises before mutating anything, the dead
`except IndexError` handler does not intervene, and `send` returns the
connection exactly as it was with no frame emitted. -/
theorem C10_send_atomic_on_full (c : Connection α) (x : α) (t : Int)
    (hfull : c.outBuffer.capacity ≤ c.outBuffer.size) :
    c.send x t = (c, [], some PyErr.outOfResource) := by
  unfold Connection.send
  rw [show c.outBuffer.append (some (t + c.timeout, x)) =
    Except.error PyErr.outOfResource from by
      unfold OutboundBuffer.append
      rw [if_pos hfull]]

/-- C7: for equal-length vector timestamps, `a < b` holds exactly when
`a` is pointwise at most `b` with at least one strictly smaller
component, and `is_concurrent a b` holds exactly when neither `a < b`
nor `b < a`. -/
theorem C7_vector_order_and_concurrency (a b : List Int)
    (hlen : a.length = b.length) :
    (VectorTimestamp.lt ⟨a⟩ ⟨b⟩ = Except.ok true ↔
      ((∀ i, i < a.length → a.getD i 0 ≤ b.getD i 0) ∧
        ∃ i, i < a.length ∧ a.getD i 0 < b.getD i 0)) ∧
    (VectorTimestamp.is_concurrent ⟨a⟩ ⟨b⟩ = Except.ok true ↔
      (¬VectorTimestamp.lt ⟨a⟩ ⟨b⟩ = Except.ok true ∧
        ¬VectorTimestamp.lt ⟨b⟩ ⟨a⟩ = Except.ok true)) := by
  have hab : VectorTimestamp.lt ⟨a⟩ ⟨b⟩ =
      Except.ok (VectorTimestamp.ltLoop a b false) := by
    unfold VectorTimestamp.lt
    rw [if_pos hlen.symm]
  have hba : VectorTimestamp.lt ⟨b⟩ ⟨a⟩ =
      Except.ok (VectorTimestamp.ltLoop b a false) := by
    unfold VectorTimestamp.lt
    rw [if_pos hlen]
  constructor
  · rw [hab]
    have h := VectorTimestamp.ltLoop_true_iff a b false hlen
    simp only [Bool.false_eq_true, false_or] at h
    rw [← h]
    simp
  · unfold VectorTimestamp.is_concurrent
    rw [hab, hba]
    rcases hr : VectorTimestamp.ltLoop a b false with _ | _
    · rcases hr2 : VectorTimestamp.ltLoop b a false with _ | _ <;> simp
    · simp

/-- Witness for C7 at `a = [0, 1]`, `b = [1, 1]`. -/
theorem C7_witness :
    ((0 : Nat) + 2 = 0 + 2) ∧
    ((VectorTimestamp.lt ⟨[0, 1]⟩ ⟨[1, 1]⟩ = Except.ok true ↔
      ((∀ i, i < ([0, 1] : List Int).length →
          ([0, 1] : List Int).getD i 0 ≤ ([1, 1] : List Int).getD i 0) ∧
        ∃ i, i < ([0, 1] : List Int).length ∧
          ([0, 1] : List Int).getD i 0 < ([1, 1] : List Int).getD i 0)) ∧
    (VectorTimestamp.is_concurrent ⟨[0, 1]⟩ ⟨[1, 1]⟩ = Except.ok true ↔
      (¬VectorTimestamp.lt ⟨[0, 1]⟩ ⟨[1, 1]⟩ = Except.ok true ∧
        ¬VectorTimestamp.lt ⟨[1, 1]⟩ ⟨[0, 1]⟩ = Except.ok true))) :=
  ⟨rfl, C7_vector_order_and_concurrency [0, 1] [1, 1] rfl⟩

/-- C6 (spec-modelled): when a node's local event set holds no `create`
event for an entry — in particular after applying an `update` event that
arrived before its `create` (events reordered across links) —
`get_entries` omits that entry, by construction without raising; and in
the concrete reordered scenario the entry becomes visible with the
updated value exactly once the create event has arrived. -/
theorem C6_update_before_create
    (choose : List SpecNode.SEvent → Option SpecNode.SEvent)
    (store : List SpecNode.SEvent) (entry : String)
    (hchoose0 : choose [] = none)
    (hchoose1 : ∀ e, choose [e] = some e)
    (hnocreate : ∀ e ∈ store, e.entry_id = entry → e.action ≠ "create") :
    (∀ pr ∈ SpecNode.getEntries choose store, pr.1 ≠ entry) ∧
    SpecNode.getEntries choose [SpecNode.updEvt] = [] ∧
    SpecNode.getEntries choose [SpecNode.updEvt, SpecNode.createEvt] =
      [("X", "Updated")] := by
  refine ⟨?_, rfl, ?_⟩
  · intro pr hpr hent
    obtain ⟨id, hid, hsome⟩ := List.mem_filterMap.mp hpr
    obtain ⟨v, hv, hpr'⟩ := Option.map_eq_some'.mp hsome
    have hident : id = entry := by rw [← hpr'] at hent; exact hent
    subst hident
    have husable : SpecNode.usableRoots store id = [] := by
      unfold SpecNode.usableRoots
      refine List.filter_eq_nil_iff.mpr ?_
      intro e he
      have hmem : e ∈ store.filter (fun e2 => e2.entry_id == id) := by
        unfold SpecNode.rootEvents at he
        exact List.mem_of_mem_filter he
      obtain ⟨hst, hentid⟩ := List.mem_filter.mp hmem
      have : e.action ≠ "create" :=
        hnocreate e hst (by simpa using hentid)
      simpa using this
    have hnone : SpecNode.resolveEntry choose store id = none := by
      unfold SpecNode.resolveEntry
      rw [husable]
    rw [hnone] at hv
    cases hv
  · have hroots : SpecNode.usableRoots
        [SpecNode.updEvt, SpecNode.createEvt] "X" = [SpecNode.createEvt] :=
      rfl
    have hsucc1 : SpecNode.successorsOf
        [SpecNode.updEvt, SpecNode.createEvt] "X" "e1" = [SpecNode.updEvt] :=
      rfl
    have hsucc2 : SpecNode.successorsOf
        [SpecNode.updEvt, SpecNode.createEvt] "X" "e2" = [] := rfl
    have hresolve : SpecNode.resolveEntry choose
        [SpecNode.updEvt, SpecNode.createEvt] "X" = some "Updated" := by
      unfold SpecNode.resolveEntry
      rw [hroots]
      show SpecNode.resolveWalk choose
        [SpecNode.updEvt, SpecNode.createEvt] "X" 2 SpecNode.createEvt =
          some "Updated"
      unfold SpecNode.resolveWalk
      rw [show SpecNode.createEvt.event_id = "e1" from rfl, hsucc1,
        hchoose1]
      show SpecNode.resolveWalk choose
        [SpecNode.updEvt, SpecNode.createEvt] "X" 1 SpecNode.updEvt =
          some "Updated"
      unfold SpecNode.resolveWalk
      rw [show SpecNode.updEvt.event_id = "e2" from rfl, hsucc2, hchoose0]
      rfl
    unfold SpecNode.getEntries
    rw [show ([SpecNode.updEvt, SpecNode.createEvt].map
        (fun e => e.entry_id)).dedup = ["X"] from rfl]
    simp [hresolve]

/-- Witness for C6 with the head-of-list comparator and the store
holding only the early-arrived update event. -/
theorem C6_witness :
    (SpecNode.headChoose [] = none ∧
      (∀ e, SpecNode.headChoose [e] = some e) ∧
      (∀ e ∈ [SpecNode.updEvt], e.entry_id = "X" → e.action ≠ "create")) ∧
    (∀ pr ∈ SpecNode.getEntries SpecNode.headChoose [SpecNode.updEvt],
      pr.1 ≠ "X") ∧
    SpecNode.getEntries SpecNode.headChoose [SpecNode.updEvt] = [] ∧
    SpecNode.getEntries SpecNode.headChoose
      [SpecNode.updEvt, SpecNode.createEvt] = [("X", "Updated")] :=
  ⟨⟨rfl, fun e => rfl, by decide⟩,
   C6_update_before_create SpecNode.headChoose [SpecNode.updEvt] "X" rfl
     (fun e => rfl) (by decide)⟩

/-- C8 counterexample: comparing Bloom timestamps of unequal filter
sizes does **not** fail fast — `is_subset_of` returns the comparison
result `False`, and `is_concurrent` consequently reports the mismatched
timestamps as concurrent. -/
theorem C8_counterexample :
    BloomTimestamp.is_subset_of ⟨[0], 0⟩ ⟨[0, 0], 0⟩ = false ∧
    BloomTimestamp.is_concurrent ⟨[0], 0⟩ ⟨[0, 0], 0⟩ = true := ⟨rfl, rfl⟩

/-- C8 (amended): only the Vector family fails fast on mismatched
lengths (`__lt__` raises `AssertionError`); the Bloom family's
`is_subset_of` instead returns `False` for filters of unequal size (so
`is_concurrent` reports `True`), treating the mismatch as an ordinary
comparison result. -/
theorem C8_mismatched_length_behaviour (va vb : List Int)
    (fa fb : List Int) (ca cb : Int) (hv : va.length ≠ vb.length)
    (hf : fa.length ≠ fb.length) :
    VectorTimestamp.lt ⟨va⟩ ⟨vb⟩ = Except.error PyErr.assertionError ∧
    BloomTimestamp.is_subset_of ⟨fa, ca⟩ ⟨fb, cb⟩ = false ∧
    BloomTimestamp.is_concurrent ⟨fa, ca⟩ ⟨fb, cb⟩ = true := by
  have h1 : BloomTimestamp.is_subset_of ⟨fa, ca⟩ ⟨fb, cb⟩ = false := by
    unfold BloomTimestamp.is_subset_of
    exact if_pos hf
  have h2 : BloomTimestamp.is_subset_of ⟨fb, cb⟩ ⟨fa, ca⟩ = false := by
    unfold BloomTimestamp.is_subset_of
    exact if_pos (fun h => hf h.symm)
  refine ⟨?_, h1, ?_⟩
  · unfold VectorTimestamp.lt
    exact if_neg (fun h => hv h.symm)
  · unfold BloomTimestamp.is_concurrent
    rw [h1, h2]
    rfl

/-- Witness for C8 (amended) at filter/vector lengths 1 versus 2. -/
theorem C8_witness :
    (([0] : List Int).length ≠ ([0, 0] : List Int).length ∧
      ([1] : List Int).length ≠ ([1, 2] : List Int).length) ∧
    (VectorTimestamp.lt ⟨[0]⟩ ⟨[0, 0]⟩ = Except.error PyErr.assertionError ∧
      BloomTimestamp.is_subset_of ⟨[1], 3⟩ ⟨[1, 2], 4⟩ = false ∧
      BloomTimestamp.is_concurrent ⟨[1], 3⟩ ⟨[1, 2], 4⟩ = true) :=
  ⟨⟨by decide, by decide⟩,
   C8_mismatched_length_behaviour [0] [0, 0] [1] [1, 2] 3 4 (by decide)
     (by decide)⟩

/-- Witness for C10: a window of size 1 holding one unacked payload; the
next `send` fails leaving the connection identical. -/
theorem C10_witness :
    (((Connection.init Nat 1 5).send 7 0).1.outBuffer.capacity ≤
      ((Connection.init Nat 1 5).send 7 0).1.outBuffer.size) ∧
    ((Connection.init Nat 1 5).send 7 0).1.send 8 3 =
      (((Connection.init Nat 1 5).send 7 0).1, [],
        some PyErr.outOfResource) :=
  ⟨by decide, C10_send_atomic_on_full (((Connection.init Nat 1 5).send 7 0).1)
    8 3 (by decide)⟩

end DistSys
